import Mathlib

/-!
# axia-core: the claim graph and its query engine

A shallow embedding of the Go packages `crypto`, `state`, `graph` (its
visualizer under `visualizer`), `axiom` (here `Axiom`), `trust` and `actions`,
followed by the properties of the specification that were checked against it.

Conventions of the embedding

* A Go method that mutates its receiver becomes a function that returns the new
  receiver next to the method's results, so that the state left behind by a call
  that returned an error stays observable.
* What the source takes from outside the repository is an explicit argument:
  the bytes `json.Marshal` produces and the SHA3-256 digest (`Lib`), the values
  read from `time.Now()` and `uuid.New()` (`Readings`, `now`, `id`), the result
  of writing a file (`saved`), and the order in which a `range` loop visits a
  map (`RangeOrder`).
* The state machine library `github.com/looplab/fsm` is outside the repository;
  `state.FSM.Event` states what its method `Event` does on the event table the
  source passes to `fsm.NewFSM`.
* Logging has no effect on any value and is left out.
-/

namespace Axia

/-! ## Values of the Go runtime -/

/-- A Go `float64`, as far as the comparison operators can tell values apart:
not-a-number, the two infinities, and the finite values, each named by the
rational number it denotes (both zeros are `fin 0`). The source never computes
with a `float64`; it only stores, copies and compares them. -/
inductive Float64 where
  | nan
  | negInf
  | fin (q : ℚ)
  | posInf
  deriving DecidableEq

namespace Float64

/-- Go's `a < b` on `float64`: false as soon as one side is not-a-number. -/
def lt : Float64 → Float64 → Bool
  | nan, _ => false
  | _, nan => false
  | negInf, negInf => false
  | negInf, _ => true
  | fin _, negInf => false
  | fin a, fin b => decide (a < b)
  | fin _, posInf => true
  | posInf, _ => false

/-- Go's `a > b` on `float64`. -/
def gt (a b : Float64) : Bool := lt b a

/-- Go's `a <= b` on `float64`: false as soon as one side is not-a-number. -/
def le : Float64 → Float64 → Bool
  | nan, _ => false
  | _, nan => false
  | negInf, _ => true
  | fin _, negInf => false
  | fin a, fin b => decide (a ≤ b)
  | fin _, posInf => true
  | posInf, posInf => true
  | posInf, _ => false

/-- The value `x` lies in the closed interval `[lo, hi]`. -/
def inRange (x lo hi : Float64) : Prop := le lo x = true ∧ le x hi = true

instance (x lo hi : Float64) : Decidable (inRange x lo hi) := by
  unfold inRange; infer_instance

/-- The value is a number (finite or infinite), not a not-a-number. -/
def isNumber : Float64 → Bool
  | nan => false
  | _ => true

end Float64

/-- A `time.Time` instant: nanoseconds since January 1 of year 1, 00:00:00 UTC,
the instant of Go's zero `time.Time`. -/
abbrev Time := Int

/-- Go's `Time.Unix`: whole seconds since January 1, 1970 UTC. -/
def Time.Unix (t : Time) : Int := t / 1000000000 - 62135596800

/-- A byte. -/
abbrev Byte := Fin 256

/-- The error values and abnormal outcomes of the operations. The source builds
no error value of its own: the only error it ever returns is the one
`json.Marshal` handed to `GenerateProof` (`marshal`). `InvalidConfidence`,
`InvalidStatement` and `InvalidQuery` are the kinds the specification names; no
function of the source constructs them. `panic` is a run-time panic
(a slice bound out of range). -/
inductive Error where
  | marshal (msg : String)
  | InvalidConfidence
  | InvalidStatement
  | InvalidQuery
  | panic (msg : String)
  deriving DecidableEq

deriving instance DecidableEq for Except

/-! ## encoding/hex -/

namespace hex

/-- The digit table of `encoding/hex`. -/
def hextable : List Char := "0123456789abcdef".toList

/-- The two characters `hextable[v>>4]`, `hextable[v&0x0f]` of one byte. -/
def encodeByte (v : Byte) : List Char :=
  [hextable.getD (v.val / 16) '0', hextable.getD (v.val % 16) '0']

/-- Go's `hex.EncodeToString`. -/
def EncodeToString (src : List Byte) : String :=
  String.mk (src.flatMap encodeByte)

end hex

/-- Go's slice expression `s[:n]` on a string of one-byte characters: a panic
when `n` exceeds the length. -/
def sliceTo (s : String) (n : Nat) : Except Error String :=
  if n ≤ s.length then .ok (String.mk (s.data.take n))
  else .error (.panic "slice bounds out of range")

/-! ## package crypto -/

namespace crypto

/-- A cryptographic proof for a graph element (`crypto.Proof`); `Metadata` is
the map literal of the source, as its list of entries. -/
structure Proof where
  Hash : String
  Timestamp : Int
  Metadata : List (String × String)
  deriving DecidableEq

/-- The proof generator (`crypto.ProofGenerator`). -/
structure ProofGenerator where
  algorithm : String
  deriving DecidableEq

/-- Creates a new proof generator (`NewProofGenerator`). -/
def NewProofGenerator : ProofGenerator := { algorithm := "sha3-256" }

/-- The method `GenerateProof(data)`. `marshal` is `json.Marshal` at the type of
`data`, `sum256` is what `sha3.New256()`, `Write`, `Sum(nil)` compute from the
written bytes, `now` is what `time.Now()` reads. -/
def ProofGenerator.GenerateProof {α : Type} (pg : ProofGenerator)
    (marshal : α → Except String (List Byte)) (sum256 : List Byte → List Byte)
    (now : Time) (data : α) : Except Error Proof :=
  match marshal data with
  | .error err => .error (.marshal err)
  | .ok jsonData =>
    .ok { Hash := hex.EncodeToString (sum256 jsonData)
          Timestamp := Time.Unix now
          Metadata := [("algorithm", pg.algorithm), ("type", "sha3-256")] }

end crypto

/-! ## package state -/

namespace state

/-- The state `initial`. -/
def StateInitial : String := "initial"
/-- The state `validated`. -/
def StateValidated : String := "validated"
/-- The state `processing`. -/
def StateProcessing : String := "processing"
/-- The state `completed`. -/
def StateCompleted : String := "completed"
/-- The state `error`. -/
def StateError : String := "error"

/-- One entry of `fsm.Events` (`fsm.EventDesc`). -/
structure EventDesc where
  Name : String
  Src : List String
  Dst : String
  deriving DecidableEq

/-- What `fsm.NewFSM(initial, events, callbacks)` is given, callbacks (logging
only) apart: the current state and the event table. -/
structure FSM where
  current : String
  events : List EventDesc
  deriving DecidableEq

/-- The state manager of a graph element (`state.StateManager`). -/
structure StateManager where
  FSM : state.FSM
  deriving DecidableEq

/-- Creates a new state manager for nodes (`NewNodeStateManager`). -/
def NewNodeStateManager : StateManager :=
  { FSM :=
      { current := StateInitial
        events :=
          [ { Name := "validate", Src := [StateInitial], Dst := StateValidated },
            { Name := "process", Src := [StateValidated], Dst := StateProcessing },
            { Name := "complete", Src := [StateProcessing], Dst := StateCompleted },
            { Name := "error", Src := ["*"], Dst := StateError } ] } }

/-- The transition table `fsm.NewFSM` builds from the event table: for every
event and each of its sources, in order, `transitions[eKey{e.Name, src}] = e.Dst`,
listed here in the order of the assignments (a later assignment to a key
replaces an earlier one). -/
def FSM.transitions (f : FSM) : List ((String × String) × String) :=
  f.events.flatMap (fun e => e.Src.map (fun src => ((e.Name, src), e.Dst)))

/-- The map lookup `transitions[eKey{event, src}]`: the destination assigned last
to the key, if any. The key is compared as it stands; no source name is a
wildcard. -/
def FSM.transition? (f : FSM) (event src : String) : Option String :=
  (f.transitions.reverse.find? (fun t => t.1 = (event, src))).map (fun t => t.2)

/-- The errors `FSM.Event` returns when no callback cancels and no transition is
asynchronous. -/
inductive EventError where
  | InvalidEventError (event state : String)
  | UnknownEventError (event : String)
  | NoTransitionError
  deriving DecidableEq

/-- The method `Event(event)` of the library `github.com/looplab/fsm`, which the
repository imports and does not contain, for a machine whose callbacks only log
(as those of `NewNodeStateManager` do): the error it returns (`none` for nil) and
the machine it leaves behind. The event is looked up under the current state;
when the key is absent the machine is left as it is and the error is
`InvalidEventError` if the event exists for some other source, `UnknownEventError`
otherwise; when the destination is the current state the error is
`NoTransitionError`; otherwise the current state becomes the destination. -/
def FSM.Event (f : FSM) (event : String) : Option EventError × FSM :=
  match f.transition? event f.current with
  | none =>
    if f.transitions.any (fun t => t.1.1 = event) then
      (some (.InvalidEventError event f.current), f)
    else (some (.UnknownEventError event), f)
  | some dst =>
    if f.current = dst then (some .NoTransitionError, f)
    else (none, { f with current := dst })

/-- The method `Current()` of the library. -/
def FSM.Current (f : FSM) : String := f.current

/-- A caller that fires events one after the other, whatever each call returns:
the machine left behind. -/
def FSM.fire (f : FSM) : List String → FSM
  | [] => f
  | event :: rest => FSM.fire (f.Event event).2 rest

/-- The events of such a run that were accepted (`Event` returned nil), in
order. -/
def FSM.accepted (f : FSM) : List String → List String
  | [] => []
  | event :: rest =>
    match f.Event event with
    | (none, f₁) => event :: FSM.accepted f₁ rest
    | (some _, f₁) => FSM.accepted f₁ rest

/-- The machine of `NewNodeStateManager` when its current state is `s`. -/
def nodeMachine (s : String) : FSM := { NewNodeStateManager.FSM with current := s }

end state

/-! ## package graph: data -/

namespace graph

/-- A graph node (`graph.Node`). `Data` is an `interface{}` in the source; every
caller stores a string (an identity) in it. `Proof` is a pointer, nil until
`AddNode` has generated the proof. -/
structure Node where
  ID : String
  Data : String
  State : state.StateManager
  Proof : Option crypto.Proof
  deriving DecidableEq

/-- A graph edge (`graph.Edge`). `From` and `To` point to nodes that are never
modified once `AddNode` has returned them, so the edge holds their values.
`State` and `Proof` are pointers that `AddClaim` leaves nil. -/
structure Edge where
  From : Node
  To : Node
  Weight : Float64
  State : Option state.StateManager := none
  Proof : Option crypto.Proof := none
  deriving DecidableEq

/-- The graph (`graph.Graph`). -/
structure Graph where
  Nodes : List Node
  Edges : List Edge
  proofGen : crypto.ProofGenerator
  deriving DecidableEq

/-- Creates an empty graph (`NewGraph`). -/
def NewGraph : Graph :=
  { Nodes := [], Edges := [], proofGen := crypto.NewProofGenerator }

end graph

/-! ## package axiom: data -/

namespace Axiom

/-- The entity verifying the claim (`axiom.Verifier`). -/
structure Verifier where
  ID : String
  deriving DecidableEq

/-- The cryptographic verification of a claim (`axiom.Proof`); `Typ` is its
field `Type`. -/
structure Proof where
  Typ : String
  Created : Time
  Verifier : Axiom.Verifier
  Domain : String
  ProofValue : String
  deriving DecidableEq

/-- The confidence scoring of an axiom (`axiom.AxiomRating`); `Typ` is its
field `Type`. -/
structure AxiomRating where
  Context : String
  Typ : String
  MaxConfidence : Float64
  MinConfidence : Float64
  ConfidenceValue : Float64
  Axiom : String
  deriving DecidableEq

/-- The main content of a claim (`axiom.Body`); `Typ` is its field `Type`. -/
structure Body where
  Context : String
  Typ : String
  Subject : String
  Agent : String
  Tags : List String
  Rating : AxiomRating
  deriving DecidableEq

/-- An axiomatic claim (`axiom.Claim`); `Typ` is its field `Type`. -/
structure Claim where
  Context : String
  Typ : String
  Issuer : String
  Issued : Time
  ClaimBody : Body
  Proof : Axiom.Proof
  deriving DecidableEq

/-- The zero value of `axiom.Proof`, which a claim carries until it is sealed. -/
def Proof.zero : Axiom.Proof :=
  { Typ := "", Created := 0, Verifier := { ID := "" }, Domain := "", ProofValue := "" }

/-- The claim manager (`axiom.Manager`). -/
structure Manager where
  proofGen : crypto.ProofGenerator
  state : state.StateManager
  deriving DecidableEq

/-- Creates a new manager (`NewManager`). -/
def NewManager : Manager :=
  { proofGen := crypto.NewProofGenerator, state := state.NewNodeStateManager }

end Axiom

/-! ## What the libraries compute -/

/-- The library functions the source calls on its data: `json.Marshal` on a
`*graph.Node` and on an `*axiom.Claim` (the bytes, or the error it returns), and
the SHA3-256 digest of a byte string, which is 32 bytes long. -/
structure Lib where
  marshalNode : graph.Node → Except String (List Byte)
  marshalClaim : Axiom.Claim → Except String (List Byte)
  sum256 : List Byte → List Byte
  sum256_length : ∀ b, (sum256 b).length = 32

/-- Of `json.Marshal`: it returns an error (`UnsupportedValueError`) for a claim
whose confidence is not a number, so a claim it serializes has a confidence that
is a number. -/
def Lib.RejectsNaN (L : Lib) : Prop :=
  ∀ c bytes, L.marshalClaim c = .ok bytes → c.ClaimBody.Rating.ConfidenceValue.isNumber = true

/-- Of `json.Marshal`: it returns no error on a node, whose `Data` holds a
string. -/
def Lib.MarshalsNodes (L : Lib) : Prop :=
  ∀ node, ∃ bytes, L.marshalNode node = .ok bytes

/-! ## package graph: operations -/

namespace graph

/-- The method `AddNode(data)`: the result and the graph the call leaves behind.
`id` is what `uuid.New().String()` returns and `now` what `time.Now()` reads
during the call. -/
def Graph.AddNode (g : Graph) (L : Lib) (id : String) (now : Time) (data : String) :
    Except Error Node × Graph :=
  let node : Node :=
    { ID := id, Data := data, State := state.NewNodeStateManager, Proof := none }
  match g.proofGen.GenerateProof L.marshalNode L.sum256 now node with
  | .error err => (.error err, g)
  | .ok proof =>
    let node := { node with Proof := some proof }
    (.ok node, { g with Nodes := g.Nodes ++ [node] })

end graph

/-! ## package axiom: operations -/

namespace Axiom

/-- The composite literal `&Claim{...}` with which `CreateClaim` starts: the
claim before its proof is generated, `issued` being what `time.Now()` reads. -/
def unsealedClaim (issued : Time) (agent subject axiomText : String)
    (confidence : Float64) (tags : List String) : Claim :=
  { Context := "https://schema.axios.ai/AxiomaticClaim.jsonld"
    Typ := "AxiomaticClaim"
    Issuer := agent
    Issued := issued
    ClaimBody :=
      { Context := "https://schema.axios.ai/"
        Typ := "Axiom"
        Subject := subject
        Agent := agent
        Tags := tags
        Rating :=
          { Context := "https://schema.axios.ai/"
            Typ := "Confidence"
            MaxConfidence := .fin 1
            MinConfidence := .fin 0
            ConfidenceValue := confidence
            Axiom := axiomText } }
    Proof := Proof.zero }

/-- The method `CreateClaim(agent, subject, axiom, confidence, tags)`.
`issued`, `stamped` and `created` are the three readings of `time.Now()`, in
the order the call makes them. -/
def Manager.CreateClaim (m : Manager) (L : Lib) (issued stamped created : Time)
    (agent subject axiomText : String) (confidence : Float64) (tags : List String) :
    Except Error Claim :=
  let claim := unsealedClaim issued agent subject axiomText confidence tags
  match m.proofGen.GenerateProof L.marshalClaim L.sum256 stamped claim with
  | .error err => .error err
  | .ok proof =>
    match sliceTo proof.Hash 64 with
    | .error err => .error err
    | .ok key =>
      .ok { claim with
            Proof :=
              { Typ := "AxiomaticVerification2024"
                Created := created
                Domain := "axios.ai"
                ProofValue := proof.Hash
                Verifier := { ID := "Axiomatic-key:" ++ key } } }

end Axiom

/-! ## package trust -/

namespace trust

open Axiom (Claim)

/-- Go's `map[string]*axiom.Claim`: an association list with distinct keys. -/
abbrev ClaimMap := AList (fun _ : String => Claim)

/-- A trust network (`trust.Network`). -/
structure Network where
  graph : graph.Graph
  claims : ClaimMap

/-- The filtering options of a query (`trust.QueryOptions`). -/
structure QueryOptions where
  Observer : String := ""
  Agent : String := ""
  Subject : String := ""
  Tags : List String := []
  Depth : Int := 0
  MinConfidence : Float64 := .fin 0
  MaxConfidence : Float64 := .fin 0
  UseConsensus : Bool := false
  UseTrustDecay : Bool := false
  deriving DecidableEq

/-- Creates a new trust network (`NewNetwork`). -/
def NewNetwork : Network := { graph := graph.NewGraph, claims := ∅ }

/-- What one call of `AddClaim` reads from outside: the identifier `uuid.New()`
returns and the instant `time.Now()` reads, for the issuer node and then for the
subject node. -/
structure Readings where
  issuerID : String
  issuerNow : Time
  subjectID : String
  subjectNow : Time
  deriving DecidableEq

/-- The method `AddClaim(claim)`: the error it returns (`none` for nil) and the
network the call leaves behind. -/
def Network.AddClaim (n : Network) (L : Lib) (r : Readings) (claim : Claim) :
    Option Error × Network :=
  match n.graph.AddNode L r.issuerID r.issuerNow claim.Issuer with
  | (.error err, g₁) => (some err, { n with graph := g₁ })
  | (.ok issuerNode, g₁) =>
    match g₁.AddNode L r.subjectID r.subjectNow claim.ClaimBody.Subject with
    | (.error err, g₂) => (some err, { n with graph := g₂ })
    | (.ok subjectNode, g₂) =>
      let edge : graph.Edge :=
        { From := issuerNode
          To := subjectNode
          Weight := claim.ClaimBody.Rating.ConfidenceValue }
      (none,
        { graph := { g₂ with Edges := g₂.Edges ++ [edge] }
          claims := n.claims.insert claim.Proof.ProofValue claim })

/-- The method `matchesQuery(claim, opts)`. -/
def Network.matchesQuery (_n : Network) (claim : Claim) (opts : QueryOptions) : Bool :=
  if opts.Subject ≠ "" ∧ claim.ClaimBody.Subject ≠ opts.Subject then false
  else if opts.Agent ≠ "" ∧ claim.Issuer ≠ opts.Agent then false
  else if Float64.lt claim.ClaimBody.Rating.ConfidenceValue opts.MinConfidence ||
      Float64.gt claim.ClaimBody.Rating.ConfidenceValue opts.MaxConfidence then false
  else true

/-- The order in which one `for ... range` loop visits the entries of a map. Go
leaves it unspecified and varies it from one loop to the next: a loop may visit
the entries in any order, each entry once. -/
structure RangeOrder where
  visit : List (Σ _ : String, Claim) → List (Σ _ : String, Claim)
  perm : ∀ l, (visit l).Perm l

/-- The method `Query(opts)`, when its loop visits the claim map in the order
`ord`: the slice of results, or the error. -/
def Network.Query (n : Network) (ord : RangeOrder) (opts : QueryOptions) :
    Except Error (List Claim) :=
  let results : List Claim := []
  let results := (ord.visit n.claims.entries).foldl
    (fun results entry =>
      if n.matchesQuery entry.2 opts then results ++ [entry.2] else results)
    results
  .ok results

/-- The claims the store holds: the values of the claim map. -/
def Network.stored (n : Network) : List Claim := n.claims.entries.map (fun entry => entry.2)

/-- Every claim of the store is filed under its own proof value, as `AddClaim`
files it. -/
def Network.Keyed (n : Network) : Prop :=
  ∀ entry ∈ n.claims.entries, entry.1 = entry.2.Proof.ProofValue

/-- A caller that ingests claims one after the other with `AddClaim`, stopping
at the first call that returns an error. -/
def Network.ingest (n : Network) (L : Lib) : List (Readings × Claim) → Option Error × Network
  | [] => (none, n)
  | (r, claim) :: rest =>
    match n.AddClaim L r claim with
    | (none, n₁) => Network.ingest n₁ L rest
    | (some err, n₁) => (some err, n₁)

end trust

/-! ## The callers of `AddClaim` -/

namespace cmd

open Axiom (Manager)
open trust (Network Readings)

/-- What one run of the `claim` command takes and reads: the values of its
flags, the three readings of `time.Now()` in `CreateClaim` and the readings of
`AddClaim`. -/
structure ClaimRun where
  agent : String
  subject : String
  axiomText : String
  confidence : Float64
  tags : List String
  issued : Time
  stamped : Time
  created : Time
  readings : Readings

/-- The body of the `claim` command in `main.go`, once the context is
authenticated: `manager.CreateClaim(...)`, its error returned if it has one, and
otherwise `network.AddClaim(claim)`. `processTweet` of the Twitter handler, the
other caller of `AddClaim`, does the same with the values parsed from a tweet.
The error returned and the network left behind. -/
def claimCmd (manager : Manager) (network : Network) (L : Lib) (run : ClaimRun) :
    Option Error × Network :=
  match manager.CreateClaim L run.issued run.stamped run.created run.agent run.subject
      run.axiomText run.confidence run.tags with
  | .error err => (some err, network)
  | .ok claim => network.AddClaim L run.readings claim

/-- The network a sequence of runs of the command leaves behind, each run
working on the network the run before left, whatever that run returned. -/
def runs (manager : Manager) (network : Network) (L : Lib) : List ClaimRun → Network
  | [] => network
  | run :: rest => runs manager (claimCmd manager network L run).2 L rest

end cmd

/-! ## package actions -/

namespace actions

/-- A trust relationship (`actions.TrustClaim`). -/
structure TrustClaim where
  Subject : String
  Predicate : String
  Object : String
  Timestamp : String
  deriving DecidableEq

/-- The main trust graph structure (`actions.TrustGraph`). -/
structure TrustGraph where
  Claims : List TrustClaim
  dbPath : String
  deriving DecidableEq

/-- The method `Get(id)`: the slice of results and the error (always nil). -/
def TrustGraph.Get (t : TrustGraph) (id : String) : List TrustClaim × Option Error :=
  let results : List TrustClaim := []
  let results := t.Claims.foldl
    (fun results claim =>
      if claim.Subject = id ∨ claim.Object = id then results ++ [claim] else results)
    results
  (results, none)

/-- The method `Claim(subject, predicate, object)`: the error it returns and the
graph it leaves behind. `timestamp` is `time.Now().UTC().Format(time.RFC3339)`
and `saved` is what `t.save()` returns after writing the file. -/
def TrustGraph.Claim (t : TrustGraph) (timestamp : String) (saved : Option Error)
    (subject predicate object : String) : Option Error × TrustGraph :=
  let claim : TrustClaim :=
    { Subject := subject, Predicate := predicate, Object := object, Timestamp := timestamp }
  (saved, { t with Claims := t.Claims ++ [claim] })

/-- The statistics `Stats` reports: the entries `total_claims`,
`unique_entities` and `unique_predicates` of the map it returns. Its fourth
entry, `top_predicates`, is left out: it is built from the predicate counts by
a map iteration and `sort.Slice` and changes none of the other three. -/
structure Statistics where
  total_claims : Nat
  unique_entities : Nat
  unique_predicates : Nat
  deriving DecidableEq

/-- The body of the loop of `Stats` on the two maps `entities`
(`map[string]bool`) and `predicates` (`map[string]int`):
`entities[claim.Subject] = true`, `entities[claim.Object] = true` and
`predicates[claim.Predicate]++`. -/
def tallyStep (maps : AList (fun _ : String => Bool) × AList (fun _ : String => Int))
    (claim : TrustClaim) : AList (fun _ : String => Bool) × AList (fun _ : String => Int) :=
  let entities := maps.1.insert claim.Subject true
  let entities := entities.insert claim.Object true
  let predicates :=
    maps.2.insert claim.Predicate ((maps.2.lookup claim.Predicate).getD 0 + 1)
  (entities, predicates)

/-- The two maps `Stats` has filled after its loop over the claims, starting
from the empty maps. -/
def TrustGraph.tally (t : TrustGraph) :
    AList (fun _ : String => Bool) × AList (fun _ : String => Int) :=
  t.Claims.foldl tallyStep (∅, ∅)

/-- The method `Stats()`: `len(t.Claims)`, `len(entities)` and
`len(predicates)`. -/
def TrustGraph.Stats (t : TrustGraph) : Statistics :=
  { total_claims := t.Claims.length
    unique_entities := t.tally.1.entries.length
    unique_predicates := t.tally.2.entries.length }

end actions

/-! ## package graph: the visualizer -/

namespace visualizer

/-- The double quote character. -/
def doubleQuote : Char := Char.ofNat 34

/-- The backslash character. -/
def backslash : Char := Char.ofNat 92

/-- The verb `%q` of `fmt.Sprintf` (`strconv.Quote`) on a string of printable
ASCII characters: the string between double quotes, with a backslash before
every double quote and every backslash. -/
def Quote (s : String) : String :=
  String.mk ([doubleQuote]
    ++ s.toList.flatMap (fun c => if c = doubleQuote ∨ c = backslash then [backslash, c] else [c])
    ++ [doubleQuote])

/-- A connection in the rendered graph (the type `Edge` of `visualizer.go`). -/
structure Edge where
  From : String
  To : String
  Predicate : String
  deriving DecidableEq

/-- The graph visualizer (`graph.Visualizer`); `nodes` is a `map[string]bool`. -/
structure Visualizer where
  nodes : AList (fun _ : String => Bool)
  edges : List Edge

/-- Creates a new visualizer (`NewVisualizer`). -/
def NewVisualizer : Visualizer := { nodes := ∅, edges := [] }

/-- The method `AddEdge(from, to, predicate)`, its first two parameters named
`source` and `target` here: the visualizer it leaves behind. -/
def Visualizer.AddEdge (v : Visualizer) (source target predicate : String) : Visualizer :=
  { nodes := (v.nodes.insert source true).insert target true
    edges := v.edges ++ [{ From := source, To := target, Predicate := predicate }] }

/-- The order in which one `for node := range v.nodes` loop yields the keys of
the node map: any order, each key once. -/
structure NodeOrder where
  visit : List String → List String
  perm : ∀ l, (visit l).Perm l

/-- The line `fmt.Sprintf("  %q;\n", node)` of a node. -/
def nodeLine (node : String) : String := "  " ++ Quote node ++ ";\n"

/-- The line `fmt.Sprintf("  %q -> %q [label=%q];\n", ...)` of an edge. -/
def edgeLine (edge : Edge) : String :=
  "  " ++ Quote edge.From ++ " -> " ++ Quote edge.To ++ " [label=" ++ Quote edge.Predicate
    ++ "];\n"

/-- The method `GenerateDOT()`, when its loop over the node map yields the keys
in the order `ord`: the text written to the buffer. -/
def Visualizer.GenerateDOT (v : Visualizer) (ord : NodeOrder) : String :=
  let buf := ""
  let buf := buf ++ "digraph TrustGraph \x7b\n"
  let buf := buf ++ "  rankdir=LR;\n"
  let buf := buf ++ "  node [shape=box, style=rounded];\n"
  let buf := (ord.visit v.nodes.keys).foldl (fun buf node => buf ++ nodeLine node) buf
  let buf := v.edges.foldl (fun buf edge => buf ++ edgeLine edge) buf
  let buf := buf ++ "\x7d\n"
  buf

end visualizer

/-! ## The specification's effective confidence -/

/-- The effective confidence of the specification's query algorithm (its
section 4.5, step 2): `confidence × decayFactor ^ hopCount`. The source has no
counterpart of it; it is used to state where the specification puts a
threshold. -/
def specEffectiveConfidence (confidence decayFactor : ℚ) (hopCount : ℕ) : ℚ :=
  confidence * decayFactor ^ hopCount

/-! ## Concrete data for the runs below -/

namespace sample

open Axiom (Claim)

/-- The bytes of a string of one-byte characters. -/
def bytesOf (s : String) : List Byte := s.toList.map (fun c => Fin.ofNat c.toNat)

/-- A stand-in for `json.Marshal` and SHA3-256 in the concrete runs (the
theorems hold for every `Lib`). Like `json.Marshal`, it returns an error for a
claim whose confidence is not finite, succeeds on every node, and writes the
tags of a claim in the order the slice holds them; the digest is the first 32
bytes of the zero-padded input. -/
def lib : Lib where
  marshalNode := fun n => .ok (bytesOf (n.ID ++ "|" ++ n.Data))
  marshalClaim := fun c =>
    match c.ClaimBody.Rating.ConfidenceValue with
    | .fin _ =>
      .ok (bytesOf (c.Issuer ++ "|" ++ c.ClaimBody.Subject ++ "|" ++ c.ClaimBody.Rating.Axiom
        ++ "|" ++ String.intercalate "," c.ClaimBody.Tags))
    | _ => .error "json: unsupported value"
  sum256 := fun b => (b ++ List.replicate 32 0).take 32
  sum256_length := fun b => by simp

/-- The identifiers and instants read by the `k`-th call of `AddClaim` in the
runs. -/
def readings (k : Nat) : trust.Readings :=
  { issuerID := "node-" ++ toString (2 * k), issuerNow := 63900000000000000000 + 2 * k
    subjectID := "node-" ++ toString (2 * k + 1), subjectNow := 63900000000000000001 + 2 * k }

/-- A sealed claim with the given issuer, subject, statement, confidence and
proof value (64 hexadecimal digits in the claims below). -/
def claim (issuer subject axiomText : String) (confidence : Float64) (proofValue : String) :
    Claim :=
  { Context := "https://schema.axios.ai/AxiomaticClaim.jsonld"
    Typ := "AxiomaticClaim"
    Issuer := issuer
    Issued := 63900000000000000000
    ClaimBody :=
      { Context := "https://schema.axios.ai/"
        Typ := "Axiom"
        Subject := subject
        Agent := issuer
        Tags := []
        Rating :=
          { Context := "https://schema.axios.ai/"
            Typ := "Confidence"
            MaxConfidence := .fin 1
            MinConfidence := .fin 0
            ConfidenceValue := confidence
            Axiom := axiomText } }
    Proof :=
      { Typ := "AxiomaticVerification2024"
        Created := 63900000000000000000
        Verifier := { ID := "Axiomatic-key:" ++ proofValue }
        Domain := "axios.ai"
        ProofValue := proofValue } }

/-- The number the `float64` nearest to the decimal 0.8 denotes. -/
def q08 : ℚ := mkRat 3602879701896397 4503599627370496

/-- The number the `float64` nearest to the decimal 0.6 denotes. -/
def q06 : ℚ := mkRat 5404319552844595 9007199254740992

/-- The `float64` nearest to the decimal 0.8. -/
def f08 : Float64 := .fin q08

/-- The `float64` nearest to the decimal 0.6. -/
def f06 : Float64 := .fin q06

/-- The `float64` nearest to the decimal 0.9. -/
def f09 : Float64 := .fin (mkRat 8106479329266893 9007199254740992)

/-- The `float64` 0.5. -/
def f05 : Float64 := .fin (mkRat 1 2)

/-- The claim (A, trusts, B, 0.8). -/
def trustsAB : Claim := claim "A" "B" "trusts" f08
    "21f29d555c7c5f9e5859a7984c0b2f8ccad9d5245fbe6c4703fd75c0922d7735"

/-- The claim (B, trusts, C, 0.8). -/
def trustsBC : Claim := claim "B" "C" "trusts" f08
    "39e9f23897e642374a8e9c3a15faeed4ce77d3c698cc3e2c2d28de1499003204"

/-- The claim (C, trusts, D, 0.8). -/
def trustsCD : Claim := claim "C" "D" "trusts" f08
    "c3bec0b05752d81dec260d59067d835593bb946cd087b0364a701a01e028ad5a"

/-- The claim (A, likes, B, 0.9). -/
def likesAB : Claim := claim "A" "B" "likes" f09
    "444c0a36f0616e6c3568cf771c2b8a99c4bda5ad9378d701ee646221ff071410"

/-- The claim (C, likes, B, 0.5). -/
def likesCB : Claim := claim "C" "B" "likes" f05
    "bc8514b128f82d85d634ddcba47bc4a0b4fde06c2e983b169aea9801382d0509"

/-- The network after `AddClaim` of (A, trusts, B, 0.8) on the empty network. -/
def once : trust.Network := (trust.NewNetwork.AddClaim lib (readings 0) trustsAB).2

/-- The network after a second `AddClaim` of the same claim. -/
def twice : trust.Network := (once.AddClaim lib (readings 1) trustsAB).2

/-- The network after ingesting (A, trusts, B, 0.8) and (B, trusts, C, 0.8). -/
def chain2 : trust.Network :=
  (trust.NewNetwork.ingest lib [(readings 0, trustsAB), (readings 1, trustsBC)]).2

/-- The network after ingesting the chain A→B→C→D of claims of confidence 0.8. -/
def chain3 : trust.Network :=
  (trust.NewNetwork.ingest lib
    [(readings 0, trustsAB), (readings 1, trustsBC), (readings 2, trustsCD)]).2

/-- The network after ingesting (A, likes, B, 0.9) and (C, likes, B, 0.5). -/
def likes : trust.Network :=
  (trust.NewNetwork.ingest lib [(readings 0, likesAB), (readings 1, likesCB)]).2

/-- The claim (A, trusts, B, 0.8) with the single tag `defi`. -/
def taggedAB : Claim :=
  { trustsAB with ClaimBody := { trustsAB.ClaimBody with Tags := ["defi"] } }

/-- The network after `AddClaim` of the claim tagged `defi`. -/
def tagged : trust.Network := (trust.NewNetwork.AddClaim lib (readings 0) taggedAB).2

/-- Two runs of the claim command: (A, trusts, B, 0.8) and (C, likes, B, 0.5). -/
def claimRuns : List cmd.ClaimRun :=
  [ { agent := "A", subject := "B", axiomText := "trusts", confidence := f08, tags := []
      issued := 63900000000000000000, stamped := 63900000000000000001
      created := 63900000000000000002, readings := readings 0 },
    { agent := "C", subject := "B", axiomText := "likes", confidence := f05, tags := []
      issued := 63900000001000000000, stamped := 63900000001000000001
      created := 63900000001000000002, readings := readings 1 } ]

/-- The network the two runs leave, starting from the empty network. -/
def afterRuns : trust.Network := cmd.runs Axiom.NewManager trust.NewNetwork lib claimRuns

/-- The visualizer after `AddEdge("B", "A", "trusts")`. -/
def edgeBA : visualizer.Visualizer := visualizer.NewVisualizer.AddEdge "B" "A" "trusts"

/-- The node order that yields the keys as the association list holds them. -/
def nodesAsHeld : visualizer.NodeOrder := { visit := id, perm := fun _ => List.Perm.refl _ }

/-- The node order that yields the keys in the reverse order. -/
def nodesReversed : visualizer.NodeOrder :=
  { visit := List.reverse, perm := fun l => List.reverse_perm l }

/-- The loop order that visits the entries as the association list holds them. -/
def stored : trust.RangeOrder := { visit := id, perm := fun _ => List.Perm.refl _ }

/-- The loop order that visits the entries in the reverse order. -/
def reversed : trust.RangeOrder := { visit := List.reverse, perm := fun l => List.reverse_perm l }

end sample

/-! ## Lemmas on the embedding -/

section Lemmas

open Axiom trust graph crypto

/-- The loop of `Query` computes a filter. -/
theorem foldl_append_if {α β : Type} (p : α → Bool) (f : α → β) (l : List α) (init : List β) :
    l.foldl (fun acc x => if p x then acc ++ [f x] else acc) init
      = init ++ (l.filter p).map f := by
  induction l generalizing init with
  | nil => simp
  | cons x xs ih =>
    by_cases hx : p x
    · simp [List.foldl_cons, ih, hx]
    · simp [List.foldl_cons, ih, hx]

/-- The hexadecimal rendering has two characters per byte. -/
theorem EncodeToString_length (src : List Byte) :
    (hex.EncodeToString src).length = 2 * src.length := by
  unfold hex.EncodeToString
  rw [String.length_mk]
  induction src with
  | nil => simp
  | cons b bs ih =>
    simp only [List.flatMap_cons, List.length_append, ih, List.length_cons]
    simp [hex.encodeByte]
    omega

/-- A generated proof carries a hash of 64 characters. -/
theorem GenerateProof_hash_length {α : Type} (pg : ProofGenerator) (L : Lib)
    (marshal : α → Except String (List Byte)) (now : Time) (data : α) (proof : crypto.Proof)
    (h : pg.GenerateProof marshal L.sum256 now data = .ok proof) :
    proof.Hash.length = 64 := by
  unfold ProofGenerator.GenerateProof at h
  split at h
  · cases h
  · cases h
    simp [EncodeToString_length, L.sum256_length]

/-- The two outcomes of `AddNode`. -/
theorem AddNode_cases (g : Graph) (L : Lib) (id : String) (now : Time) (data : String) :
    (∃ err, g.AddNode L id now data = (.error err, g)) ∨
    (∃ node : Node, g.AddNode L id now data
        = (.ok node, { g with Nodes := g.Nodes ++ [node] })
      ∧ node.Data = data ∧ node.ID = id) := by
  unfold Graph.AddNode
  simp only []
  split
  · exact Or.inl ⟨_, rfl⟩
  · exact Or.inr ⟨_, rfl, rfl, rfl⟩

/-- When `json.Marshal` succeeds on every node, `AddNode` succeeds. -/
theorem AddNode_ok_of_marshal (g : Graph) (L : Lib)
    (hL : ∀ x, ∃ b, L.marshalNode x = .ok b) (id : String) (now : Time) (data : String) :
    ∃ node : Node, g.AddNode L id now data
        = (.ok node, { g with Nodes := g.Nodes ++ [node] })
      ∧ node.Data = data ∧ node.ID = id := by
  obtain ⟨b, hb⟩ := hL
    { ID := id, Data := data, State := state.NewNodeStateManager, Proof := none }
  unfold Graph.AddNode ProofGenerator.GenerateProof
  simp only [hb]
  exact ⟨_, rfl, rfl, rfl⟩

/-- What a successful `AddClaim` leaves behind. -/
theorem AddClaim_ok {n n₁ : Network} {L : Lib} {r : Readings} {c : Claim}
    (h : n.AddClaim L r c = (none, n₁)) :
    ∃ a b : Node, a.Data = c.Issuer ∧ b.Data = c.ClaimBody.Subject ∧
      a.ID = r.issuerID ∧ b.ID = r.subjectID ∧
      n₁.graph.Nodes = n.graph.Nodes ++ [a, b] ∧
      n₁.graph.Edges = n.graph.Edges ++
        [{ From := a, To := b, Weight := c.ClaimBody.Rating.ConfidenceValue }] ∧
      n₁.claims = n.claims.insert c.Proof.ProofValue c := by
  unfold Network.AddClaim at h
  rcases AddNode_cases n.graph L r.issuerID r.issuerNow c.Issuer with ⟨e, he⟩ | ⟨a, ha, hda, hia⟩
  · rw [he] at h; simp at h
  · rw [ha] at h
    simp only at h
    rcases AddNode_cases { n.graph with Nodes := n.graph.Nodes ++ [a] } L r.subjectID
      r.subjectNow c.ClaimBody.Subject with ⟨e, he⟩ | ⟨b, hb, hdb, hib⟩
    · rw [he] at h; simp at h
    · rw [hb] at h
      simp only [Prod.mk.injEq, true_and] at h
      subst h
      exact ⟨a, b, hda, hdb, hia, hib, by simp, rfl, rfl⟩

/-- When `json.Marshal` succeeds on every node, `AddClaim` succeeds. -/
theorem AddClaim_succeeds (n : Network) (L : Lib) (hL : ∀ x, ∃ b, L.marshalNode x = .ok b)
    (r : Readings) (c : Claim) : ∃ n₁, n.AddClaim L r c = (none, n₁) := by
  unfold Network.AddClaim
  obtain ⟨a, ha, -, -⟩ := AddNode_ok_of_marshal n.graph L hL r.issuerID r.issuerNow c.Issuer
  rw [ha]
  obtain ⟨b, hb, -, -⟩ := AddNode_ok_of_marshal { n.graph with Nodes := n.graph.Nodes ++ [a] }
    L hL r.subjectID r.subjectNow c.ClaimBody.Subject
  simp only [hb]
  exact ⟨_, rfl⟩

/-- The size of the claim map after `claims[key] = claim`. -/
theorem ClaimMap_insert_length (m : ClaimMap) (key : String) (c : Claim) :
    (m.insert key c).entries.length
      = if key ∈ m then m.entries.length else m.entries.length + 1 := by
  rw [AList.insert_entries]
  by_cases hk : key ∈ m
  · obtain ⟨b, l₁, l₂, -, h₂, h₃⟩ := List.exists_of_kerase (AList.mem_keys.mp hk)
    simp only [hk, if_true, List.length_cons, h₃]
    rw [h₂]
    simp only [List.length_append, List.length_cons]
    omega
  · rw [List.kerase_of_not_mem_keys (fun h => hk (AList.mem_keys.mpr h))]
    simp [hk]

/-- The result of `Query`: the visited claims that match, in the order of the visit. -/
theorem Query_eq (n : Network) (ord : RangeOrder) (opts : QueryOptions) :
    n.Query ord opts
      = .ok (((ord.visit n.claims.entries).filter (fun entry => n.matchesQuery entry.2 opts)).map
          (fun entry => entry.2)) := by
  unfold Network.Query
  simp only [foldl_append_if, List.nil_append]

/-- A claim is in the result of `Query` exactly when it is stored and matches. -/
theorem mem_Query (n : Network) (ord : RangeOrder) (opts : QueryOptions) (c : Claim) :
    (∃ results, n.Query ord opts = .ok results ∧ c ∈ results)
      ↔ c ∈ n.stored ∧ n.matchesQuery c opts = true := by
  rw [Query_eq]
  simp only [Except.ok.injEq, exists_eq_left', List.mem_map, List.mem_filter, Network.stored,
    (ord.perm n.claims.entries).mem_iff]
  constructor
  · rintro ⟨entry, ⟨hmem, hmatch⟩, rfl⟩
    exact ⟨⟨entry, hmem, rfl⟩, hmatch⟩
  · rintro ⟨⟨entry, hmem, rfl⟩, hmatch⟩
    exact ⟨entry, ⟨hmem, hmatch⟩, rfl⟩

/-- What `matchesQuery` tests: the subject and agent filters when they are set,
and the two comparisons of the stored confidence with the bounds. -/
theorem matchesQuery_iff (n : Network) (c : Claim) (opts : QueryOptions) :
    n.matchesQuery c opts = true ↔
      (opts.Subject = "" ∨ c.ClaimBody.Subject = opts.Subject) ∧
      (opts.Agent = "" ∨ c.Issuer = opts.Agent) ∧
      Float64.lt c.ClaimBody.Rating.ConfidenceValue opts.MinConfidence = false ∧
      Float64.gt c.ClaimBody.Rating.ConfidenceValue opts.MaxConfidence = false := by
  unfold Network.matchesQuery
  by_cases hs : opts.Subject = "" <;> by_cases hs' : c.ClaimBody.Subject = opts.Subject <;>
    by_cases ha : opts.Agent = "" <;> by_cases ha' : c.Issuer = opts.Agent <;>
    cases hlt : Float64.lt c.ClaimBody.Rating.ConfidenceValue opts.MinConfidence <;>
    cases hgt : Float64.gt c.ClaimBody.Rating.ConfidenceValue opts.MaxConfidence <;>
    simp [hs, hs', ha, ha']

/-- On numbers, failing both comparisons of the filter is lying in the range. -/
theorem inRange_iff_of_numbers (x lo hi : Float64) (hx : x.isNumber = true)
    (hlo : lo.isNumber = true) (hhi : hi.isNumber = true) :
    (Float64.lt x lo = false ∧ Float64.gt x hi = false) ↔ Float64.inRange x lo hi := by
  cases x <;> cases lo <;> cases hi <;>
    simp_all [Float64.lt, Float64.gt, Float64.le, Float64.inRange, Float64.isNumber]

/-- In a store filed by proof value no claim is held twice. -/
theorem stored_nodup (n : Network) (hk : n.Keyed) : n.stored.Nodup := by
  unfold Network.stored
  have hkeys : (n.claims.entries.map (fun entry => entry.1)).Nodup := n.claims.nodupKeys
  refine List.Nodup.of_map (fun c : Claim => c.Proof.ProofValue) ?_
  rw [List.map_map]
  have : n.claims.entries.map ((fun c : Claim => c.Proof.ProofValue) ∘ fun entry => entry.2)
      = n.claims.entries.map (fun entry => entry.1) := by
    apply List.map_congr_left
    intro entry hmem
    exact (hk entry hmem).symm
  rw [this]
  exact hkeys

/-- The result of `Query` holds no claim twice when the store is filed by proof
value. -/
theorem Query_nodup (n : Network) (hk : n.Keyed) (ord : RangeOrder) (opts : QueryOptions)
    (results : List Claim) (h : n.Query ord opts = .ok results) : results.Nodup := by
  rw [Query_eq] at h
  cases h
  have hperm : ((ord.visit n.claims.entries).map (fun entry => entry.2)).Perm n.stored :=
    (ord.perm n.claims.entries).map _
  have hnd : ((ord.visit n.claims.entries).map (fun entry => entry.2)).Nodup :=
    hperm.nodup_iff.mpr (stored_nodup n hk)
  have hsub : (((ord.visit n.claims.entries).filter
      (fun entry => n.matchesQuery entry.2 opts)).map (fun entry => entry.2)).Sublist
      ((ord.visit n.claims.entries).map (fun entry => entry.2)) :=
    (List.filter_sublist _).map _
  exact hsub.nodup hnd

/-- `AddClaim` keeps the store filed by proof value. -/
theorem AddClaim_keyed {n n₁ : Network} {L : Lib} {r : Readings} {c : Claim}
    (hk : n.Keyed) (h : n.AddClaim L r c = (none, n₁)) : n₁.Keyed := by
  obtain ⟨-, -, -, -, -, -, -, -, hc⟩ := AddClaim_ok h
  intro entry hmem
  rw [hc, AList.insert_entries, List.mem_cons] at hmem
  rcases hmem with rfl | hmem
  · rfl
  · exact hk entry ((List.kerase_sublist _ _).subset hmem)

/-- When the stored confidences and the two bounds are numbers and the store is
filed by proof value, `Query` returns, each once, exactly the stored claims that
pass the agent and subject filters and whose confidence lies in the range. -/
theorem Query_exact_of_numbers (n : Network) (hk : n.Keyed) (ord : RangeOrder)
    (opts : QueryOptions)
    (hst : ∀ c ∈ n.stored, c.ClaimBody.Rating.ConfidenceValue.isNumber = true)
    (hlo : opts.MinConfidence.isNumber = true) (hhi : opts.MaxConfidence.isNumber = true) :
    ∃ results, n.Query ord opts = .ok results ∧ results.Nodup ∧
      ∀ c, c ∈ results ↔
        c ∈ n.stored ∧ (opts.Agent = "" ∨ c.Issuer = opts.Agent) ∧
        (opts.Subject = "" ∨ c.ClaimBody.Subject = opts.Subject) ∧
        Float64.inRange c.ClaimBody.Rating.ConfidenceValue opts.MinConfidence
          opts.MaxConfidence := by
  obtain ⟨results, hres⟩ : ∃ results, n.Query ord opts = .ok results := ⟨_, Query_eq n ord opts⟩
  refine ⟨results, hres, Query_nodup n hk ord opts results hres, fun c => ?_⟩
  have hmem := mem_Query n ord opts c
  rw [hres] at hmem
  simp only [Except.ok.injEq, exists_eq_left'] at hmem
  rw [hmem, matchesQuery_iff]
  constructor
  · rintro ⟨hs, hsub, hag, hlt, hgt⟩
    exact ⟨hs, hag, hsub, (inRange_iff_of_numbers _ _ _ (hst c hs) hlo hhi).mp ⟨hlt, hgt⟩⟩
  · rintro ⟨hs, hag, hsub, hr⟩
    obtain ⟨hlt, hgt⟩ := (inRange_iff_of_numbers _ _ _ (hst c hs) hlo hhi).mpr hr
    exact ⟨hs, hsub, hag, hlt, hgt⟩

/-- The result of `Query` is, up to the order of the visit, the stored claims
that match. -/
theorem Query_perm (n : Network) (ord : RangeOrder) (opts : QueryOptions) :
    ∃ results, n.Query ord opts = .ok results ∧
      results.Perm (n.stored.filter (fun c => n.matchesQuery c opts)) := by
  refine ⟨_, Query_eq n ord opts, ?_⟩
  unfold Network.stored
  rw [List.filter_map]
  exact ((ord.perm n.claims.entries).filter _).map _

/-- The options `matchesQuery` never reads do not change its answer. -/
theorem matchesQuery_congr (n : Network) (c : Claim) (opts opts₁ : QueryOptions)
    (hs : opts₁.Subject = opts.Subject) (ha : opts₁.Agent = opts.Agent)
    (hlo : opts₁.MinConfidence = opts.MinConfidence)
    (hhi : opts₁.MaxConfidence = opts.MaxConfidence) :
    n.matchesQuery c opts₁ = n.matchesQuery c opts := by
  unfold Network.matchesQuery
  rw [hs, ha, hlo, hhi]

/-- The options `Query` never reads do not change its result. -/
theorem Query_congr (n : Network) (ord : RangeOrder) (opts opts₁ : QueryOptions)
    (hs : opts₁.Subject = opts.Subject) (ha : opts₁.Agent = opts.Agent)
    (hlo : opts₁.MinConfidence = opts.MinConfidence)
    (hhi : opts₁.MaxConfidence = opts.MaxConfidence) :
    n.Query ord opts₁ = n.Query ord opts := by
  unfold Network.Query
  simp only [matchesQuery_congr n _ opts opts₁ hs ha hlo hhi]

/-- The nodes a run of successful `AddClaim` calls appends. -/
theorem ingest_nodes_from (L : Lib) (calls : List (Readings × Claim)) (n n₁ : Network)
    (h : n.ingest L calls = (none, n₁)) :
    n₁.graph.Nodes.map (fun node => node.Data)
      = n.graph.Nodes.map (fun node => node.Data)
        ++ calls.flatMap (fun call => [call.2.Issuer, call.2.ClaimBody.Subject]) ∧
    n₁.graph.Nodes.map (fun node => node.ID)
      = n.graph.Nodes.map (fun node => node.ID)
        ++ calls.flatMap (fun call => [call.1.issuerID, call.1.subjectID]) := by
  induction calls generalizing n with
  | nil =>
    simp only [Network.ingest, Prod.mk.injEq, true_and] at h
    subst h
    simp
  | cons call rest ih =>
    obtain ⟨r, c⟩ := call
    unfold Network.ingest at h
    cases hstep : n.AddClaim L r c with
    | mk err n₂ =>
      rw [hstep] at h
      cases err with
      | some e => simp at h
      | none =>
        simp only at h
        obtain ⟨a, b, hda, hdb, hia, hib, hn, -, -⟩ := AddClaim_ok hstep
        obtain ⟨ih₁, ih₂⟩ := ih n₂ h
        rw [ih₁, ih₂, hn]
        simp [hda, hdb, hia, hib]

/-- The store a run of successful `AddClaim` calls leaves: each claim assigned
under its proof value, in the order of the calls. -/
theorem ingest_claims (L : Lib) (calls : List (Readings × Claim)) (n n₁ : Network)
    (h : n.ingest L calls = (none, n₁)) :
    n₁.claims = calls.foldl (fun m call => m.insert call.2.Proof.ProofValue call.2) n.claims := by
  induction calls generalizing n with
  | nil =>
    simp only [Network.ingest, Prod.mk.injEq, true_and] at h
    subst h
    rfl
  | cons call rest ih =>
    obtain ⟨r, c⟩ := call
    unfold Network.ingest at h
    cases hstep : n.AddClaim L r c with
    | mk err n₂ =>
      rw [hstep] at h
      cases err with
      | some e => simp at h
      | none =>
        simp only at h
        obtain ⟨-, -, -, -, -, -, -, -, hc⟩ := AddClaim_ok hstep
        rw [ih n₂ h, hc]
        rfl

/-- When every stored claim matches, `Query` returns the stored claims, in the
order of the visit. -/
theorem Query_perm_stored (n : Network) (ord : RangeOrder) (opts : QueryOptions)
    (hall : ∀ c ∈ n.stored, n.matchesQuery c opts = true) :
    ∃ results, n.Query ord opts = .ok results ∧ results.Perm n.stored := by
  obtain ⟨results, hres, hperm⟩ := Query_perm n ord opts
  refine ⟨results, hres, ?_⟩
  rwa [List.filter_eq_self.mpr hall] at hperm

/-- When no stored claim matches, `Query` returns the empty slice. -/
theorem Query_nil (n : Network) (ord : RangeOrder) (opts : QueryOptions)
    (hnone : ∀ c ∈ n.stored, n.matchesQuery c opts = false) :
    n.Query ord opts = .ok [] := by
  obtain ⟨results, hres, hperm⟩ := Query_perm n ord opts
  have hnil : n.stored.filter (fun c => n.matchesQuery c opts) = [] :=
    List.filter_eq_nil_iff.mpr (fun c hc => by simp [hnone c hc])
  rw [hnil] at hperm
  rw [hres, hperm.eq_nil]

/-- The answer of `matchesQuery` does not depend on the network. -/
theorem matchesQuery_network (n n₁ : Network) (c : Claim) (opts : QueryOptions) :
    n.matchesQuery c opts = n₁.matchesQuery c opts := rfl

/-- What an `AddClaim` that returns an error leaves behind: the store and the
edges as they were, and the nodes either as they were or with one more node,
carrying the issuer. -/
theorem AddClaim_error {n n₁ : Network} {L : Lib} {r : Readings} {c : Claim} {err : Error}
    (h : n.AddClaim L r c = (some err, n₁)) :
    n₁.claims = n.claims ∧ n₁.graph.Edges = n.graph.Edges ∧
    (n₁.graph.Nodes = n.graph.Nodes ∨
      ∃ a : Node, a.Data = c.Issuer ∧ n₁.graph.Nodes = n.graph.Nodes ++ [a]) := by
  unfold Network.AddClaim at h
  rcases AddNode_cases n.graph L r.issuerID r.issuerNow c.Issuer with ⟨e, he⟩ | ⟨a, ha, hda, -⟩
  · rw [he] at h
    simp only [Prod.mk.injEq] at h
    obtain ⟨-, rfl⟩ := h
    exact ⟨rfl, rfl, Or.inl rfl⟩
  · rw [ha] at h
    simp only at h
    rcases AddNode_cases { n.graph with Nodes := n.graph.Nodes ++ [a] } L r.subjectID
      r.subjectNow c.ClaimBody.Subject with ⟨e, he⟩ | ⟨b, hb, -, -⟩
    · rw [he] at h
      simp only [Prod.mk.injEq] at h
      obtain ⟨-, rfl⟩ := h
      exact ⟨rfl, rfl, Or.inr ⟨a, hda, rfl⟩⟩
    · rw [hb] at h
      simp at h

/-- The transition table of the node state machine. -/
theorem nodeMachine_transitions (s : String) :
    (state.nodeMachine s).transitions =
      [(("validate", "initial"), "validated"), (("process", "validated"), "processing"),
        (("complete", "processing"), "completed"), (("error", "*"), "error")] := rfl

/-- The lookup in the transition table of the node state machine. -/
theorem nodeMachine_transition (s event src : String) :
    (state.nodeMachine s).transition? event src =
      if event = "error" ∧ src = "*" then some "error"
      else if event = "complete" ∧ src = "processing" then some "completed"
      else if event = "process" ∧ src = "validated" then some "processing"
      else if event = "validate" ∧ src = "initial" then some "validated"
      else none := by
  unfold state.FSM.transition?
  rw [nodeMachine_transitions]
  simp only [List.reverse_cons, List.reverse_nil, List.nil_append, List.cons_append,
    List.find?_cons, List.find?_nil, Prod.mk.injEq]
  by_cases h1 : event = "error" ∧ src = "*"
  · obtain ⟨rfl, rfl⟩ := h1; simp
  · by_cases h2 : event = "complete" ∧ src = "processing"
    · obtain ⟨rfl, rfl⟩ := h2; simp
    · by_cases h3 : event = "process" ∧ src = "validated"
      · obtain ⟨rfl, rfl⟩ := h3; simp
      · by_cases h4 : event = "validate" ∧ src = "initial"
        · obtain ⟨rfl, rfl⟩ := h4; simp
        · have e1 : ¬ ("error" = event ∧ "*" = src) := fun h => h1 ⟨h.1.symm, h.2.symm⟩
          have e2 : ¬ ("complete" = event ∧ "processing" = src) :=
            fun h => h2 ⟨h.1.symm, h.2.symm⟩
          have e3 : ¬ ("process" = event ∧ "validated" = src) :=
            fun h => h3 ⟨h.1.symm, h.2.symm⟩
          have e4 : ¬ ("validate" = event ∧ "initial" = src) :=
            fun h => h4 ⟨h.1.symm, h.2.symm⟩
          simp [h1, h2, h3, h4, e1, e2, e3, e4]

/-- An event with no transition under the current state is rejected and leaves
the machine as it is. -/
theorem Event_of_no_transition (f : state.FSM) (event : String)
    (h : f.transition? event f.current = none) :
    ∃ err, f.Event event = (some err, f) := by
  unfold state.FSM.Event
  rw [h]
  by_cases hany : f.transitions.any (fun t => t.1.1 = event) = true
  · refine ⟨.InvalidEventError event f.current, ?_⟩
    simp only [hany, if_true]
  · refine ⟨.UnknownEventError event, ?_⟩
    simp only [hany]
    rfl

/-- In the node state machine an event other than the one its state awaits is
rejected; in particular every event is rejected in a state other than `initial`,
`validated`, `processing` and `*`. -/
theorem nodeMachine_rejects (s event : String)
    (h1 : ¬ (event = "validate" ∧ s = "initial")) (h2 : ¬ (event = "process" ∧ s = "validated"))
    (h3 : ¬ (event = "complete" ∧ s = "processing")) (h4 : ¬ (event = "error" ∧ s = "*")) :
    ∃ err, (state.nodeMachine s).Event event = (some err, state.nodeMachine s) := by
  apply Event_of_no_transition
  show (state.nodeMachine s).transition? event s = none
  rw [nodeMachine_transition]
  simp [h1, h2, h3, h4]

/-- A run of the node state machine that ends in `completed` has accepted
exactly the events that lead there from its first state. -/
theorem accepted_of_completed (events : List String) :
    (((state.nodeMachine "initial").fire events).Current = "completed" →
      (state.nodeMachine "initial").accepted events = ["validate", "process", "complete"]) ∧
    (((state.nodeMachine "validated").fire events).Current = "completed" →
      (state.nodeMachine "validated").accepted events = ["process", "complete"]) ∧
    (((state.nodeMachine "processing").fire events).Current = "completed" →
      (state.nodeMachine "processing").accepted events = ["complete"]) ∧
    (((state.nodeMachine "completed").fire events).Current = "completed" →
      (state.nodeMachine "completed").accepted events = []) := by
  induction events with
  | nil =>
    refine ⟨?_, ?_, ?_, ?_⟩ <;> decide
  | cons e rest ih =>
    obtain ⟨ih1, ih2, ih3, ih4⟩ := ih
    refine ⟨?_, ?_, ?_, ?_⟩
    · by_cases hv : e = "validate"
      · subst hv
        have hstep : (state.nodeMachine "initial").Event "validate"
            = (none, state.nodeMachine "validated") := by decide
        simp only [state.FSM.fire, state.FSM.accepted, hstep]
        intro h
        rw [ih2 h]
      · obtain ⟨err, hstep⟩ := nodeMachine_rejects "initial" e (by simp [hv]) (by simp)
          (by simp) (by simp)
        simp only [state.FSM.fire, state.FSM.accepted, hstep]
        exact ih1
    · by_cases hv : e = "process"
      · subst hv
        have hstep : (state.nodeMachine "validated").Event "process"
            = (none, state.nodeMachine "processing") := by decide
        simp only [state.FSM.fire, state.FSM.accepted, hstep]
        intro h
        rw [ih3 h]
      · obtain ⟨err, hstep⟩ := nodeMachine_rejects "validated" e (by simp) (by simp [hv])
          (by simp) (by simp)
        simp only [state.FSM.fire, state.FSM.accepted, hstep]
        exact ih2
    · by_cases hv : e = "complete"
      · subst hv
        have hstep : (state.nodeMachine "processing").Event "complete"
            = (none, state.nodeMachine "completed") := by decide
        simp only [state.FSM.fire, state.FSM.accepted, hstep]
        intro h
        rw [ih4 h]
      · obtain ⟨err, hstep⟩ := nodeMachine_rejects "processing" e (by simp) (by simp)
          (by simp [hv]) (by simp)
        simp only [state.FSM.fire, state.FSM.accepted, hstep]
        exact ih3
    · obtain ⟨err, hstep⟩ := nodeMachine_rejects "completed" e (by simp) (by simp)
        (by simp) (by simp)
      simp only [state.FSM.fire, state.FSM.accepted, hstep]
      exact ih4

/-- A machine in which every event is rejected stays as it is through any run
and accepts nothing. -/
theorem fire_of_rejecting (f : state.FSM)
    (h : ∀ event, ∃ err, f.Event event = (some err, f)) (events : List String) :
    f.fire events = f ∧ f.accepted events = [] := by
  induction events with
  | nil => exact ⟨rfl, rfl⟩
  | cons e rest ih =>
    obtain ⟨err, hstep⟩ := h e
    simp only [state.FSM.fire, state.FSM.accepted, hstep]
    exact ih

/-- In the node state machine an event of the table that has no transition under
the state `s` is rejected with `InvalidEventError`. -/
theorem nodeMachine_invalid (s event : String)
    (hev : event = "validate" ∨ event = "process" ∨ event = "complete" ∨ event = "error")
    (h1 : ¬ (event = "validate" ∧ s = "initial")) (h2 : ¬ (event = "process" ∧ s = "validated"))
    (h3 : ¬ (event = "complete" ∧ s = "processing")) (h4 : ¬ (event = "error" ∧ s = "*")) :
    (state.nodeMachine s).Event event
      = (some (.InvalidEventError event s), state.nodeMachine s) := by
  have hnone : (state.nodeMachine s).transition? event (state.nodeMachine s).current = none := by
    show (state.nodeMachine s).transition? event s = none
    rw [nodeMachine_transition]
    simp [h1, h2, h3, h4]
  have hany : (state.nodeMachine s).transitions.any (fun t => t.1.1 = event) = true := by
    rw [nodeMachine_transitions]
    rcases hev with rfl | rfl | rfl | rfl <;> decide
  unfold state.FSM.Event
  rw [hnone]
  simp only [hany, if_true]
  rfl

/-- The loop of `Get` computes a filter. -/
theorem Get_eq (t : actions.TrustGraph) (id : String) :
    t.Get id = (t.Claims.filter (fun c => decide (c.Subject = id ∨ c.Object = id)), none) := by
  unfold actions.TrustGraph.Get
  have h := foldl_append_if (fun c : actions.TrustClaim => decide (c.Subject = id ∨ c.Object = id))
    (fun c => c) t.Claims []
  simp only [decide_eq_true_eq, List.nil_append, List.map_id'] at h
  simp only [h]

/-- Every digit of the table index below 16 is a character of the table. -/
theorem hextable_getD_mem : ∀ i, i < 16 → hex.hextable.getD i '0' ∈ hex.hextable := by
  decide

/-- The hexadecimal rendering consists of characters of the digit table. -/
theorem EncodeToString_hex (src : List Byte) :
    ∀ ch ∈ (hex.EncodeToString src).data, ch ∈ hex.hextable := by
  intro ch hch
  unfold hex.EncodeToString at hch
  simp only [List.mem_flatMap, hex.encodeByte, List.mem_cons, List.mem_singleton,
    List.not_mem_nil, or_false] at hch
  obtain ⟨v, -, rfl | rfl⟩ := hch
  · exact hextable_getD_mem _ (by have := v.isLt; omega)
  · exact hextable_getD_mem _ (Nat.mod_lt _ (by decide))

/-- The slice `s[:64]` of a string of 64 characters is the string. -/
theorem sliceTo_of_length (s : String) (h : s.length = 64) : sliceTo s 64 = .ok s := by
  unfold sliceTo
  have hd : s.data.length = 64 := h
  simp only [h, le_refl, if_true, Except.ok.injEq]
  rw [List.take_of_length_le (by omega)]

/-- With `MaxConfidence` at its zero value no returned claim has a confidence
above 0. -/
theorem Query_zero_max (n : Network) (ord : RangeOrder) (opts : QueryOptions)
    (hmax : opts.MaxConfidence = .fin 0) (results : List Claim)
    (h : n.Query ord opts = .ok results) :
    ∀ c ∈ results, Float64.gt c.ClaimBody.Rating.ConfidenceValue (.fin 0) = false := by
  intro c hc
  have hm := (mem_Query n ord opts c).mp ⟨results, h, hc⟩
  have := (matchesQuery_iff n c opts).mp hm.2
  rw [hmax] at this
  exact this.2.2.2

/-- When `MinConfidence > MaxConfidence` and every stored confidence is a number,
`Query` returns the empty slice. -/
theorem Query_empty_of_min_gt_max (n : Network) (ord : RangeOrder) (opts : QueryOptions)
    (hgt : Float64.gt opts.MinConfidence opts.MaxConfidence = true)
    (hst : ∀ c ∈ n.stored, c.ClaimBody.Rating.ConfidenceValue.isNumber = true) :
    n.Query ord opts = .ok [] := by
  apply Query_nil
  intro c hc
  have hnum := hst c hc
  cases hm : n.matchesQuery c opts with
  | false => rfl
  | true =>
    exfalso
    obtain ⟨-, -, hlo, hhi⟩ := (matchesQuery_iff n c opts).mp hm
    revert hgt hlo hhi hnum
    cases c.ClaimBody.Rating.ConfidenceValue <;> cases opts.MinConfidence <;>
      cases opts.MaxConfidence <;>
      simp [Float64.lt, Float64.gt, Float64.isNumber]
    intro h₁ h₂
    exact lt_of_lt_of_le h₁ h₂

/-- The keys of the two maps of `Stats` after its loop over a list of claims:
the keys they had, the subjects and objects of the claims in the first, the
predicates of the claims in the second. -/
theorem tally_keys (claims : List actions.TrustClaim)
    (init : AList (fun _ : String => Bool) × AList (fun _ : String => Int)) :
    (∀ k, k ∈ (claims.foldl actions.tallyStep init).1 ↔
      k ∈ init.1 ∨ k ∈ claims.flatMap (fun c => [c.Subject, c.Object])) ∧
    (∀ k, k ∈ (claims.foldl actions.tallyStep init).2 ↔
      k ∈ init.2 ∨ k ∈ claims.map (fun c => c.Predicate)) := by
  induction claims generalizing init with
  | nil => simp
  | cons c rest ih =>
    obtain ⟨ih₁, ih₂⟩ := ih (actions.tallyStep init c)
    constructor
    · intro k
      rw [List.foldl_cons, ih₁ k]
      simp only [actions.tallyStep, AList.mem_insert, List.flatMap_cons, List.mem_append,
        List.mem_cons, List.mem_singleton, List.not_mem_nil, or_false]
      tauto
    · intro k
      rw [List.foldl_cons, ih₂ k]
      simp only [actions.tallyStep, AList.mem_insert, List.map_cons, List.mem_cons]
      tauto

/-- The size of a map is the number of distinct elements of any list that has
the same members as its keys. -/
theorem AList_length_eq_card {β : Type} (m : AList (fun _ : String => β)) (l : List String)
    (h : ∀ k, k ∈ m ↔ k ∈ l) : m.entries.length = l.toFinset.card := by
  have hkeys : m.keys.toFinset = l.toFinset := by
    ext k
    rw [List.mem_toFinset, List.mem_toFinset, ← AList.mem_keys]
    exact h k
  rw [← hkeys, List.toFinset_card_of_nodup m.keys_nodup]
  simp [AList.keys, List.keys]

/-- Writing the lines of a list to a buffer one after the other appends their
concatenation. -/
theorem foldl_write {α : Type} (line : α → String) (l : List α) (buf : String) :
    l.foldl (fun buf x => buf ++ line x) buf
      = buf ++ l.foldr (fun x text => line x ++ text) "" := by
  induction l generalizing buf with
  | nil => simp
  | cons x xs ih =>
    rw [List.foldl_cons, ih, List.foldr_cons, String.append_assoc]

/-- The text of `GenerateDOT`: the three header lines, the node lines in the
order in which the loop yields the keys of the node map, the edge lines in the
order of the `AddEdge` calls, and the closing line. -/
theorem GenerateDOT_eq (v : visualizer.Visualizer) (ord : visualizer.NodeOrder) :
    v.GenerateDOT ord
      = "digraph TrustGraph \x7b\n" ++ "  rankdir=LR;\n"
        ++ "  node [shape=box, style=rounded];\n"
        ++ (ord.visit v.nodes.keys).foldr (fun node text => visualizer.nodeLine node ++ text) ""
        ++ v.edges.foldr (fun edge text => visualizer.edgeLine edge ++ text) ""
        ++ "\x7d\n" := by
  unfold visualizer.Visualizer.GenerateDOT
  simp only [foldl_write, String.empty_append]

/-- What a successful `CreateClaim` returns: the claim serialized, and the
returned claim has the body of the unsealed claim and the digest of the
serialization as proof value. -/
theorem CreateClaim_ok {m : Manager} {L : Lib} {issued stamped created : Time}
    {agent subject axiomText : String} {confidence : Float64} {tags : List String} {c : Claim}
    (h : m.CreateClaim L issued stamped created agent subject axiomText confidence tags
      = .ok c) :
    ∃ bytes,
      L.marshalClaim (unsealedClaim issued agent subject axiomText confidence tags) = .ok bytes ∧
      c.ClaimBody = (unsealedClaim issued agent subject axiomText confidence tags).ClaimBody ∧
      c.Issuer = agent ∧
      c.Proof.ProofValue = hex.EncodeToString (L.sum256 bytes) := by
  unfold Manager.CreateClaim ProofGenerator.GenerateProof at h
  cases hb : L.marshalClaim (unsealedClaim issued agent subject axiomText confidence tags) with
  | error e => simp [hb] at h
  | ok bytes =>
    have hlen : (hex.EncodeToString (L.sum256 bytes)).length = 64 := by
      rw [EncodeToString_length, L.sum256_length]
    simp only [hb, sliceTo_of_length _ hlen, Except.ok.injEq] at h
    subst h
    exact ⟨bytes, rfl, rfl, rfl, rfl⟩

/-- The store `AddClaim` leaves: the store as it was when the call returned an
error, the store with the claim assigned under its proof value otherwise. -/
theorem AddClaim_claims (n : Network) (L : Lib) (r : Readings) (c : Claim) :
    (n.AddClaim L r c).2.claims = n.claims ∨
    (n.AddClaim L r c).2.claims = n.claims.insert c.Proof.ProofValue c := by
  cases hres : n.AddClaim L r c with
  | mk err n₁ =>
    cases err with
    | none =>
      obtain ⟨-, -, -, -, -, -, -, -, hc⟩ := AddClaim_ok hres
      exact Or.inr hc
    | some e => exact Or.inl (AddClaim_error hres).1

/-- One run of the claim command keeps the store filed by proof value and, when
`json.Marshal` rejects what is not a number, holding only confidences that are
numbers. -/
theorem claimCmd_invariant (m : Manager) (n : Network) (L : Lib) (run : cmd.ClaimRun)
    (hL : L.RejectsNaN) (hk : n.Keyed)
    (hnum : ∀ c ∈ n.stored, c.ClaimBody.Rating.ConfidenceValue.isNumber = true) :
    (cmd.claimCmd m n L run).2.Keyed ∧
    ∀ c ∈ (cmd.claimCmd m n L run).2.stored,
      c.ClaimBody.Rating.ConfidenceValue.isNumber = true := by
  unfold cmd.claimCmd
  cases hcreate : m.CreateClaim L run.issued run.stamped run.created run.agent run.subject
      run.axiomText run.confidence run.tags with
  | error e => exact ⟨hk, hnum⟩
  | ok claim =>
    simp only
    obtain ⟨bytes, hb, hbody, -, -⟩ := CreateClaim_ok hcreate
    have hclaim : claim.ClaimBody.Rating.ConfidenceValue.isNumber = true := by
      rw [hbody]
      exact hL _ bytes hb
    rcases AddClaim_claims n L run.readings claim with hsame | hins
    · constructor
      · intro entry hmem
        rw [hsame] at hmem
        exact hk entry hmem
      · intro c hc
        unfold Network.stored at hc
        rw [hsame] at hc
        exact hnum c hc
    · constructor
      · intro entry hmem
        rw [hins, AList.insert_entries, List.mem_cons] at hmem
        rcases hmem with rfl | hmem
        · rfl
        · exact hk entry ((List.kerase_sublist _ _).subset hmem)
      · intro c hc
        unfold Network.stored at hc
        rw [hins, AList.insert_entries, List.map_cons, List.mem_cons] at hc
        rcases hc with rfl | hc
        · exact hclaim
        · exact hnum c ((List.kerase_sublist _ _).map _ |>.subset hc)

/-- Every store the claim command builds from the empty network is filed by
proof value and, when `json.Marshal` rejects what is not a number, holds only
confidences that are numbers. -/
theorem runs_invariant (m : Manager) (L : Lib) (hL : L.RejectsNaN) (calls : List cmd.ClaimRun) :
    (cmd.runs m NewNetwork L calls).Keyed ∧
    ∀ c ∈ (cmd.runs m NewNetwork L calls).stored,
      c.ClaimBody.Rating.ConfidenceValue.isNumber = true := by
  have hgen : ∀ (n : Network), n.Keyed →
      (∀ c ∈ n.stored, c.ClaimBody.Rating.ConfidenceValue.isNumber = true) →
      (cmd.runs m n L calls).Keyed ∧
      ∀ c ∈ (cmd.runs m n L calls).stored,
        c.ClaimBody.Rating.ConfidenceValue.isNumber = true := by
    induction calls with
    | nil => exact fun n hk hnum => ⟨hk, hnum⟩
    | cons run rest ih =>
      intro n hk hnum
      obtain ⟨hk₁, hnum₁⟩ := claimCmd_invariant m n L run hL hk hnum
      exact ih _ hk₁ hnum₁
  refine hgen NewNetwork ?_ ?_
  · intro entry hmem
    simp [NewNetwork] at hmem
  · intro c hc
    simp [Network.stored, NewNetwork] at hc

/-- The stand-in library rejects a confidence that is not a number. -/
theorem sample_lib_rejectsNaN : sample.lib.RejectsNaN := by
  intro c bytes h
  unfold sample.lib at h
  simp only at h
  split at h
  · rename_i q hq
    rw [hq]
    rfl
  · simp at h

/-- The stand-in library serializes every node. -/
theorem sample_lib_marshalsNodes : sample.lib.MarshalsNodes := fun _ => ⟨_, rfl⟩

end Lemmas

/-! ## The claims of the specification -/

section Claims

open Axiom trust graph crypto

/-- C1, counterexample: on the empty network the first `AddClaim` of the claim
(A, trusts, B, 0.8) succeeds and leaves 1 edge, 2 nodes and 1 stored claim; the
second `AddClaim` of the same claim succeeds too and leaves 2 edges and 4 nodes
(the store still has 1 claim), so the edge and node counts are not unchanged. -/
theorem addClaim_twice_counts :
    (NewNetwork.AddClaim sample.lib (sample.readings 0) sample.trustsAB).1 = none ∧
    (sample.once.AddClaim sample.lib (sample.readings 1) sample.trustsAB).1 = none ∧
    sample.once.graph.Edges.length = 1 ∧ sample.twice.graph.Edges.length = 2 ∧
    sample.once.graph.Nodes.length = 2 ∧ sample.twice.graph.Nodes.length = 4 ∧
    sample.once.claims.entries.length = 1 ∧ sample.twice.claims.entries.length = 1 := by
  decide

/-- C1, amended: when serializing a node never fails, then for every network and
every claim a first `AddClaim(c)` succeeds, a second `AddClaim(c)` of the same
claim succeeds as well, and the second call leaves the claim store as it was
(same entries, same size) but appends one more edge and two more nodes. -/
theorem addClaim_again_appends (L : Lib) (hL : ∀ x, ∃ b, L.marshalNode x = .ok b)
    (n : Network) (r₁ r₂ : Readings) (c : Claim) :
    ∃ n₁ n₂, n.AddClaim L r₁ c = (none, n₁) ∧ n₁.AddClaim L r₂ c = (none, n₂) ∧
      n₂.claims = n₁.claims ∧
      n₂.claims.entries.length = n₁.claims.entries.length ∧
      n₂.graph.Edges.length = n₁.graph.Edges.length + 1 ∧
      n₂.graph.Nodes.length = n₁.graph.Nodes.length + 2 := by
  obtain ⟨n₁, h₁⟩ := AddClaim_succeeds n L hL r₁ c
  obtain ⟨n₂, h₂⟩ := AddClaim_succeeds n₁ L hL r₂ c
  obtain ⟨-, -, -, -, -, -, -, -, hc₁⟩ := AddClaim_ok h₁
  obtain ⟨a, b, -, -, -, -, hn, he, hc₂⟩ := AddClaim_ok h₂
  have hc : n₂.claims = n₁.claims := by rw [hc₂, hc₁, AList.insert_insert]
  refine ⟨n₁, n₂, h₁, h₂, hc, by rw [hc], ?_, ?_⟩
  · rw [he]; simp
  · rw [hn]; simp

/-- C1, the amended statement at the empty network, with the stand-in library,
for the claim (A, trusts, B, 0.8). -/
theorem addClaim_again_appends_witness :
    (∀ x, ∃ b, sample.lib.marshalNode x = .ok b) ∧
    ∃ n₁ n₂, NewNetwork.AddClaim sample.lib (sample.readings 0) sample.trustsAB = (none, n₁) ∧
      n₁.AddClaim sample.lib (sample.readings 1) sample.trustsAB = (none, n₂) ∧
      n₂.claims = n₁.claims ∧
      n₂.claims.entries.length = n₁.claims.entries.length ∧
      n₂.graph.Edges.length = n₁.graph.Edges.length + 1 ∧
      n₂.graph.Nodes.length = n₁.graph.Nodes.length + 2 :=
  ⟨fun _ => ⟨_, rfl⟩,
    addClaim_again_appends sample.lib (fun _ => ⟨_, rfl⟩) NewNetwork
      (sample.readings 0) (sample.readings 1) sample.trustsAB⟩

/-- C2, counterexample: `CreateClaim` with confidence 2.0, and with confidence
-1.0, does not return `InvalidConfidence`: it returns a claim, which carries the
out-of-range confidence. -/
theorem createClaim_out_of_range_accepted :
    NewManager.CreateClaim sample.lib 63900000000000000000 63900000000000000001
        63900000000000000002 "A" "B" "trusts" (.fin 2) ["t"] ≠ .error .InvalidConfidence ∧
    (NewManager.CreateClaim sample.lib 63900000000000000000 63900000000000000001
        63900000000000000002 "A" "B" "trusts" (.fin 2) ["t"]).toOption.map
      (fun c => c.ClaimBody.Rating.ConfidenceValue) = some (.fin 2) ∧
    (NewManager.CreateClaim sample.lib 63900000000000000000 63900000000000000001
        63900000000000000002 "A" "B" "trusts" (.fin (-1)) ["t"]).toOption.map
      (fun c => c.ClaimBody.Rating.ConfidenceValue) = some (.fin (-1)) := by
  decide

/-- C2, amended: `CreateClaim` does not check the confidence. For every
confidence value, inside `[0,1]` (the boundary values 0.0 and 1.0 included) or
outside it, the call succeeds whenever the claim serializes and the returned
claim carries that confidence, issuer and subject unchanged; when serializing
fails, the call returns that serialization error (never `InvalidConfidence`). -/
theorem createClaim_confidence_unchecked (m : Manager) (L : Lib)
    (issued stamped created : Time) (agent subject axiomText : String)
    (confidence : Float64) (tags : List String) :
    (∀ bytes,
      L.marshalClaim (unsealedClaim issued agent subject axiomText confidence tags) = .ok bytes →
      ∃ c, m.CreateClaim L issued stamped created agent subject axiomText confidence tags = .ok c ∧
        c.ClaimBody.Rating.ConfidenceValue = confidence ∧ c.Issuer = agent ∧
        c.ClaimBody.Subject = subject) ∧
    (∀ err,
      L.marshalClaim (unsealedClaim issued agent subject axiomText confidence tags) = .error err →
      m.CreateClaim L issued stamped created agent subject axiomText confidence tags
        = .error (.marshal err)) := by
  constructor
  · intro bytes hb
    unfold Manager.CreateClaim ProofGenerator.GenerateProof
    simp only [hb]
    have hlen : (hex.EncodeToString (L.sum256 bytes)).length = 64 := by
      rw [EncodeToString_length, L.sum256_length]
    unfold sliceTo
    simp only [hlen, le_refl, if_true]
    exact ⟨_, rfl, rfl, rfl, rfl⟩
  · intro err he
    unfold Manager.CreateClaim ProofGenerator.GenerateProof
    simp only [he]

/-- C2, the amended statement at the boundary values: with the stand-in library
`CreateClaim` succeeds for confidence 0.0 and for confidence 1.0. -/
theorem createClaim_confidence_unchecked_witness :
    (∃ c, NewManager.CreateClaim sample.lib 63900000000000000000 63900000000000000001
        63900000000000000002 "A" "B" "trusts" (.fin 0) [] = .ok c ∧
      c.ClaimBody.Rating.ConfidenceValue = .fin 0 ∧ c.Issuer = "A" ∧ c.ClaimBody.Subject = "B") ∧
    (∃ c, NewManager.CreateClaim sample.lib 63900000000000000000 63900000000000000001
        63900000000000000002 "A" "B" "trusts" (.fin 1) [] = .ok c ∧
      c.ClaimBody.Rating.ConfidenceValue = .fin 1 ∧ c.Issuer = "A" ∧ c.ClaimBody.Subject = "B") :=
  ⟨(createClaim_confidence_unchecked NewManager sample.lib _ _ _ "A" "B" "trusts" (.fin 0) []).1
      _ rfl,
    (createClaim_confidence_unchecked NewManager sample.lib _ _ _ "A" "B" "trusts" (.fin 1) []).1
      _ rfl⟩

/-- C4: for every value that serializes, two calls of `GenerateProof` on it, at
whatever instants, both return a proof, and the two proofs have the same `Hash`
(and the same `Metadata`); each carries the `Timestamp` of its own instant. -/
theorem generateProof_hash_deterministic {α : Type} (pg : ProofGenerator)
    (marshal : α → Except String (List Byte)) (sum256 : List Byte → List Byte)
    (data : α) (bytes : List Byte) (h : marshal data = .ok bytes) (t₁ t₂ : Time) :
    ∃ p₁ p₂, pg.GenerateProof marshal sum256 t₁ data = .ok p₁ ∧
      pg.GenerateProof marshal sum256 t₂ data = .ok p₂ ∧
      p₁.Hash = p₂.Hash ∧ p₁.Metadata = p₂.Metadata ∧
      p₁.Timestamp = Time.Unix t₁ ∧ p₂.Timestamp = Time.Unix t₂ := by
  unfold ProofGenerator.GenerateProof
  simp only [h]
  exact ⟨_, _, rfl, rfl, rfl, rfl, rfl, rfl⟩

/-- C4 at a concrete value: the unsealed claim (A, trusts, B, 0.8) serializes
with the stand-in library, and its proofs generated at two instants a second
apart have the same hash. -/
theorem generateProof_hash_deterministic_witness :
    ∃ p₁ p₂,
      NewProofGenerator.GenerateProof sample.lib.marshalClaim sample.lib.sum256
        63900000000000000000 (unsealedClaim 63900000000000000000 "A" "B" "trusts" sample.f08 [])
        = .ok p₁ ∧
      NewProofGenerator.GenerateProof sample.lib.marshalClaim sample.lib.sum256
        63900000001000000000 (unsealedClaim 63900000000000000000 "A" "B" "trusts" sample.f08 [])
        = .ok p₂ ∧
      p₁.Hash = p₂.Hash ∧ p₁.Metadata = p₂.Metadata ∧
      p₁.Timestamp = Time.Unix 63900000000000000000 ∧
      p₂.Timestamp = Time.Unix 63900000001000000000 :=
  generateProof_hash_deterministic NewProofGenerator sample.lib.marshalClaim sample.lib.sum256
    (unsealedClaim 63900000000000000000 "A" "B" "trusts" sample.f08 []) _ rfl _ _

/-- C5: for every claim whose proof value is not yet a key of the store, a
successful `AddClaim` appends exactly one edge to the edge list; its `From` node
carries the claim's issuer, its `To` node the claim's subject, both nodes are in
the graph, its `Weight` is the claim's confidence value; afterwards the store
maps the claim's proof value to the claim and has one entry more. -/
theorem addClaim_appends_edge (n n₁ : Network) (L : Lib) (r : Readings) (c : Claim)
    (hnew : c.Proof.ProofValue ∉ n.claims) (h : n.AddClaim L r c = (none, n₁)) :
    ∃ e : Edge, n₁.graph.Edges = n.graph.Edges ++ [e] ∧
      e.From.Data = c.Issuer ∧ e.To.Data = c.ClaimBody.Subject ∧
      e.From ∈ n₁.graph.Nodes ∧ e.To ∈ n₁.graph.Nodes ∧
      e.Weight = c.ClaimBody.Rating.ConfidenceValue ∧
      n₁.claims.lookup c.Proof.ProofValue = some c ∧
      n₁.claims.entries.length = n.claims.entries.length + 1 := by
  obtain ⟨a, b, hda, hdb, -, -, hn, he, hc⟩ := AddClaim_ok h
  refine ⟨_, he, hda, hdb, ?_, ?_, rfl, ?_, ?_⟩
  · rw [hn]; simp
  · rw [hn]; simp
  · rw [hc, AList.lookup_insert]
  · rw [hc, ClaimMap_insert_length, if_neg hnew]

/-- C5 at a concrete input: `AddClaim` of (A, trusts, B, 0.8) on the empty
network, with the stand-in library. -/
theorem addClaim_appends_edge_witness :
    sample.trustsAB.Proof.ProofValue ∉ NewNetwork.claims ∧
    NewNetwork.AddClaim sample.lib (sample.readings 0) sample.trustsAB = (none, sample.once) ∧
    ∃ e : Edge, sample.once.graph.Edges = NewNetwork.graph.Edges ++ [e] ∧
      e.From.Data = sample.trustsAB.Issuer ∧ e.To.Data = sample.trustsAB.ClaimBody.Subject ∧
      e.From ∈ sample.once.graph.Nodes ∧ e.To ∈ sample.once.graph.Nodes ∧
      e.Weight = sample.trustsAB.ClaimBody.Rating.ConfidenceValue ∧
      sample.once.claims.lookup sample.trustsAB.Proof.ProofValue = some sample.trustsAB ∧
      sample.once.claims.entries.length = NewNetwork.claims.entries.length + 1 :=
  ⟨by decide, rfl,
    addClaim_appends_edge NewNetwork sample.once sample.lib (sample.readings 0) sample.trustsAB
      (by decide) rfl⟩

/-- C6, counterexample: after the successful `AddClaim` calls for (A, trusts, B)
and (B, trusts, C) on the empty network the graph has four nodes, carrying the
identities A, B, B, C: two nodes carry the identity B. -/
theorem ingest_duplicates_identity :
    (NewNetwork.ingest sample.lib
      [(sample.readings 0, sample.trustsAB), (sample.readings 1, sample.trustsBC)]).1 = none ∧
    sample.chain2.graph.Nodes.map (fun node => node.Data) = ["A", "B", "B", "C"] ∧
    ¬ (sample.chain2.graph.Nodes.map (fun node => node.Data)).Nodup := by
  decide

/-- C6, amended: after any sequence of successful `AddClaim` calls starting
from the empty network the graph holds one node per occurrence of an identity as
issuer or subject of an ingested claim, not one per distinct identity: the
identities the nodes carry are, in order, the issuer and the subject of each
claim, their IDs are the identifiers drawn for them, and there are twice as many
nodes as claims were ingested. -/
theorem ingest_nodes (L : Lib) (calls : List (Readings × Claim)) (n : Network)
    (h : NewNetwork.ingest L calls = (none, n)) :
    n.graph.Nodes.map (fun node => node.Data)
      = calls.flatMap (fun call => [call.2.Issuer, call.2.ClaimBody.Subject]) ∧
    n.graph.Nodes.map (fun node => node.ID)
      = calls.flatMap (fun call => [call.1.issuerID, call.1.subjectID]) ∧
    n.graph.Nodes.length = 2 * calls.length := by
  obtain ⟨hd, hi⟩ := ingest_nodes_from L calls NewNetwork n h
  have hd₁ : n.graph.Nodes.map (fun node => node.Data)
      = calls.flatMap (fun call => [call.2.Issuer, call.2.ClaimBody.Subject]) := by
    rw [hd]; rfl
  refine ⟨hd₁, by rw [hi]; rfl, ?_⟩
  have hlen := congrArg List.length hd₁
  rw [List.length_map] at hlen
  rw [hlen]
  clear hd hi hd₁ hlen h
  induction calls with
  | nil => rfl
  | cons call rest ih =>
    simp only [List.flatMap_cons, List.length_append, List.length_cons, List.length_nil, ih]
    omega

/-- C6, the amended statement for the two claims (A, trusts, B) and
(B, trusts, C), with the stand-in library. -/
theorem ingest_nodes_witness :
    NewNetwork.ingest sample.lib
        [(sample.readings 0, sample.trustsAB), (sample.readings 1, sample.trustsBC)]
      = (none, sample.chain2) ∧
    sample.chain2.graph.Nodes.map (fun node => node.Data)
      = [(sample.readings 0, sample.trustsAB), (sample.readings 1, sample.trustsBC)].flatMap
          (fun call => [call.2.Issuer, call.2.ClaimBody.Subject]) ∧
    sample.chain2.graph.Nodes.map (fun node => node.ID)
      = [(sample.readings 0, sample.trustsAB), (sample.readings 1, sample.trustsBC)].flatMap
          (fun call => [call.1.issuerID, call.1.subjectID]) ∧
    sample.chain2.graph.Nodes.length
      = 2 * [(sample.readings 0, sample.trustsAB), (sample.readings 1, sample.trustsBC)].length :=
  ⟨rfl, ingest_nodes sample.lib _ sample.chain2 rfl⟩

/-- C7, counterexample: in the network holding (A, trusts, B) and (B, trusts, C),
`Query` with observer A, depth 0 and range `[0,1]` returns, whatever the order of
its loop, the claim issued by B, which A did not issue. -/
theorem query_depth0_returns_other_issuer :
    (NewNetwork.ingest sample.lib
      [(sample.readings 0, sample.trustsAB), (sample.readings 1, sample.trustsBC)]).1 = none ∧
    sample.trustsBC ∈ sample.chain2.stored ∧ sample.trustsBC.Issuer ≠ "A" ∧
    ∀ ord : RangeOrder, ∃ results,
      sample.chain2.Query ord
        { Observer := "A", Depth := 0, MinConfidence := .fin 0, MaxConfidence := .fin 1 }
        = .ok results ∧ sample.trustsBC ∈ results := by
  refine ⟨by decide, by decide, by decide, fun ord => ?_⟩
  obtain ⟨results, hres, hperm⟩ := Query_perm_stored sample.chain2 ord
    { Observer := "A", Depth := 0, MinConfidence := .fin 0, MaxConfidence := .fin 1 }
    (by decide)
  exact ⟨results, hres, hperm.mem_iff.mpr (by decide)⟩

/-- C7, amended: `Query` consults neither `Observer` nor `Depth`. For every
network, every observer identity and every depth (0 in particular), the query
with that observer and depth and range `[0,1]` (no other filter) returns the
same result as the query without observer: exactly the stored claims whose
confidence is neither below 0 nor above 1, whoever issued them. -/
theorem query_ignores_observer (n : Network) (ord : RangeOrder) (observer : String)
    (depth : Int) :
    n.Query ord
        { Observer := observer, Depth := depth, MinConfidence := .fin 0,
          MaxConfidence := .fin 1 }
      = n.Query ord { MinConfidence := .fin 0, MaxConfidence := .fin 1 } ∧
    ∃ results,
      n.Query ord
        { Observer := observer, Depth := depth, MinConfidence := .fin 0,
          MaxConfidence := .fin 1 }
        = .ok results ∧
      ∀ c, c ∈ results ↔
        c ∈ n.stored ∧
        Float64.lt c.ClaimBody.Rating.ConfidenceValue (.fin 0) = false ∧
        Float64.gt c.ClaimBody.Rating.ConfidenceValue (.fin 1) = false := by
  refine ⟨Query_congr n ord _ _ rfl rfl rfl rfl, _, Query_eq n ord _, fun c => ?_⟩
  have hmem := mem_Query n ord
    { Observer := observer, Depth := depth, MinConfidence := .fin 0, MaxConfidence := .fin 1 } c
  rw [Query_eq] at hmem
  simp only [Except.ok.injEq, exists_eq_left'] at hmem
  rw [hmem, matchesQuery_iff]
  simp

/-- C8, counterexample: in the network holding (A, trusts, B, 0.8) and
(B, trusts, C, 0.8), `Query` with observer A, depth 1 and range `[0,1]` returns,
whatever the order of its loop, two claims, the B→C claim among them. -/
theorem query_depth1_returns_second_hop :
    (NewNetwork.ingest sample.lib
      [(sample.readings 0, sample.trustsAB), (sample.readings 1, sample.trustsBC)]).1 = none ∧
    ∀ ord : RangeOrder, ∃ results,
      sample.chain2.Query ord
        { Observer := "A", Depth := 1, MinConfidence := .fin 0, MaxConfidence := .fin 1 }
        = .ok results ∧ sample.trustsBC ∈ results ∧ results.length = 2 := by
  refine ⟨by decide, fun ord => ?_⟩
  obtain ⟨results, hres, hperm⟩ := Query_perm_stored sample.chain2 ord
    { Observer := "A", Depth := 1, MinConfidence := .fin 0, MaxConfidence := .fin 1 }
    (by decide)
  exact ⟨results, hres, hperm.mem_iff.mpr (by decide), by rw [hperm.length_eq]; decide⟩

/-- C8, amended: `Query` is not depth-limited. After ingesting (A, trusts, B, 0.8)
and (B, trusts, C, 0.8) into the empty network, `Query` with observer A and range
`[0,1]` returns both claims for depth 1 as it does for depth 2: the two queries
give the same result, the two claims in the order of the visit. -/
theorem query_ignores_depth (L : Lib) (r₁ r₂ : Readings) (n : Network) (ord : RangeOrder)
    (h : NewNetwork.ingest L [(r₁, sample.trustsAB), (r₂, sample.trustsBC)] = (none, n)) :
    ∃ results,
      n.Query ord
        { Observer := "A", Depth := 1, MinConfidence := .fin 0, MaxConfidence := .fin 1 }
        = .ok results ∧
      n.Query ord
        { Observer := "A", Depth := 2, MinConfidence := .fin 0, MaxConfidence := .fin 1 }
        = .ok results ∧
      results.Perm [sample.trustsAB, sample.trustsBC] := by
  have hst : n.stored = [sample.trustsBC, sample.trustsAB] := by
    unfold Network.stored
    rw [ingest_claims L _ NewNetwork n h]
    simp only [List.foldl_cons, List.foldl_nil]
    decide
  obtain ⟨results, hres, hperm⟩ := Query_perm_stored n ord
    { Observer := "A", Depth := 1, MinConfidence := .fin 0, MaxConfidence := .fin 1 }
    (by
      intro c hc
      rw [hst] at hc
      rw [matchesQuery_network n NewNetwork]
      revert c
      decide)
  refine ⟨results, hres, ?_, ?_⟩
  · rw [← hres]
    exact Query_congr n ord _ _ rfl rfl rfl rfl
  · rw [hst] at hperm
    exact hperm.trans (List.Perm.swap _ _ _)

/-- C8, the amended statement with the stand-in library, the loop visiting the
entries as they are held. -/
theorem query_ignores_depth_witness :
    NewNetwork.ingest sample.lib
        [(sample.readings 0, sample.trustsAB), (sample.readings 1, sample.trustsBC)]
      = (none, sample.chain2) ∧
    ∃ results,
      sample.chain2.Query sample.stored
        { Observer := "A", Depth := 1, MinConfidence := .fin 0, MaxConfidence := .fin 1 }
        = .ok results ∧
      sample.chain2.Query sample.stored
        { Observer := "A", Depth := 2, MinConfidence := .fin 0, MaxConfidence := .fin 1 }
        = .ok results ∧
      results.Perm [sample.trustsAB, sample.trustsBC] :=
  ⟨rfl, query_ignores_depth sample.lib (sample.readings 0) (sample.readings 1) sample.chain2
    sample.stored rfl⟩

/-- C9, counterexample: in the chain A→B→C→D of claims of raw confidence 0.8,
with decay factor 0.8 the specification's effective confidences are
0.8 × 0.8² at two hops and 0.8 × 0.8 at one hop, and 0.6 lies strictly between
them; yet `Query` from observer A with `UseTrustDecay` enabled and
`MinConfidence` 0.6 returns, whatever the order of its loop, the claim two hops
away (C→D) together with the claim one hop away (B→C). -/
theorem query_decay_keeps_farther_claim :
    (NewNetwork.ingest sample.lib
      [(sample.readings 0, sample.trustsAB), (sample.readings 1, sample.trustsBC),
        (sample.readings 2, sample.trustsCD)]).1 = none ∧
    specEffectiveConfidence sample.q08 sample.q08 2 < sample.q06 ∧
    sample.q06 < specEffectiveConfidence sample.q08 sample.q08 1 ∧
    ∀ ord : RangeOrder, ∃ results,
      sample.chain3.Query ord
        { Observer := "A", Depth := 3, MinConfidence := sample.f06, MaxConfidence := .fin 1,
          UseTrustDecay := true }
        = .ok results ∧ sample.trustsBC ∈ results ∧ sample.trustsCD ∈ results := by
  refine ⟨by decide, ?_, ?_, fun ord => ?_⟩
  · norm_num [specEffectiveConfidence, sample.q08, sample.q06, Rat.mkRat_eq_div]
  · norm_num [specEffectiveConfidence, sample.q08, sample.q06, Rat.mkRat_eq_div]
  · obtain ⟨results, hres, hperm⟩ := Query_perm_stored sample.chain3 ord
      { Observer := "A", Depth := 3, MinConfidence := sample.f06, MaxConfidence := .fin 1,
        UseTrustDecay := true }
      (by decide)
    exact ⟨results, hres, hperm.mem_iff.mpr (by decide), hperm.mem_iff.mpr (by decide)⟩

/-- C9, amended: `UseTrustDecay` has no effect; `Query` filters on the raw stored
confidence. For every network and every options value without agent and subject
filter, the query with decay enabled returns what the query with decay disabled
returns, and two stored claims of equal raw confidence (such as the claims one
hop and two hops away in a chain of equal confidence) are either both in the
result or both absent from it, whatever `MinConfidence` is. -/
theorem query_ignores_decay (n : Network) (ord : RangeOrder) (opts : QueryOptions)
    (c₁ c₂ : Claim) (results : List Claim)
    (h₁ : c₁ ∈ n.stored) (h₂ : c₂ ∈ n.stored)
    (hconf : c₁.ClaimBody.Rating.ConfidenceValue = c₂.ClaimBody.Rating.ConfidenceValue)
    (hag : opts.Agent = "") (hsub : opts.Subject = "")
    (hres : n.Query ord { opts with UseTrustDecay := true } = .ok results) :
    n.Query ord { opts with UseTrustDecay := false } = .ok results ∧
    (c₁ ∈ results ↔ c₂ ∈ results) := by
  refine ⟨?_, ?_⟩
  · rw [← hres]
    exact Query_congr n ord _ _ rfl rfl rfl rfl
  · have hm₁ := mem_Query n ord { opts with UseTrustDecay := true } c₁
    have hm₂ := mem_Query n ord { opts with UseTrustDecay := true } c₂
    rw [hres] at hm₁ hm₂
    simp only [Except.ok.injEq, exists_eq_left'] at hm₁ hm₂
    rw [hm₁, hm₂, matchesQuery_iff, matchesQuery_iff]
    simp [h₁, h₂, hconf, hag, hsub]

/-- C9, the amended statement in the chain A→B→C→D of claims of confidence 0.8,
for the claims one hop and two hops away from A and `MinConfidence` 0.6. -/
theorem query_ignores_decay_witness :
    sample.trustsBC ∈ sample.chain3.stored ∧ sample.trustsCD ∈ sample.chain3.stored ∧
    sample.chain3.Query sample.stored
        { Observer := "A", Depth := 3, MinConfidence := sample.f06, MaxConfidence := .fin 1,
          UseTrustDecay := true }
      = .ok [sample.trustsCD, sample.trustsBC, sample.trustsAB] ∧
    sample.chain3.Query sample.stored
        { Observer := "A", Depth := 3, MinConfidence := sample.f06, MaxConfidence := .fin 1,
          UseTrustDecay := false }
      = .ok [sample.trustsCD, sample.trustsBC, sample.trustsAB] ∧
    (sample.trustsBC ∈ [sample.trustsCD, sample.trustsBC, sample.trustsAB] ↔
      sample.trustsCD ∈ [sample.trustsCD, sample.trustsBC, sample.trustsAB]) :=
  ⟨by decide, by decide, by decide,
    query_ignores_decay sample.chain3 sample.stored
      { Observer := "A", Depth := 3, MinConfidence := sample.f06, MaxConfidence := .fin 1 }
      sample.trustsBC sample.trustsCD [sample.trustsCD, sample.trustsBC, sample.trustsAB]
      (by decide) (by decide) rfl rfl rfl (by decide)⟩

/-- C10, counterexample: after ingesting (A, likes, B, 0.9) and (C, likes, B, 0.5),
`Query{Subject: B, UseConsensus: true}` with range `[0,1]` returns, whatever the
order of its loop, two entries, the two claims themselves, and no single entry
for B; with the two bounds left at their zero value it returns no entry at all. -/
theorem query_consensus_returns_two_claims :
    (NewNetwork.ingest sample.lib
      [(sample.readings 0, sample.likesAB), (sample.readings 1, sample.likesCB)]).1 = none ∧
    (∀ ord : RangeOrder, ∃ results,
      sample.likes.Query ord
        { Subject := "B", UseConsensus := true, MinConfidence := .fin 0,
          MaxConfidence := .fin 1 }
        = .ok results ∧ results.length = 2 ∧
        sample.likesAB ∈ results ∧ sample.likesCB ∈ results) ∧
    (∀ ord : RangeOrder,
      sample.likes.Query ord { Subject := "B", UseConsensus := true } = .ok []) := by
  refine ⟨by decide, fun ord => ?_, fun ord => ?_⟩
  · obtain ⟨results, hres, hperm⟩ := Query_perm_stored sample.likes ord
      { Subject := "B", UseConsensus := true, MinConfidence := .fin 0, MaxConfidence := .fin 1 }
      (by decide)
    exact ⟨results, hres, by rw [hperm.length_eq]; decide, hperm.mem_iff.mpr (by decide),
      hperm.mem_iff.mpr (by decide)⟩
  · exact Query_nil sample.likes ord { Subject := "B", UseConsensus := true } (by decide)

/-- C10, amended: `UseConsensus` has no effect; `Query` returns stored claims,
never an aggregated entry. After ingesting (A, likes, B, 0.9) and
(C, likes, B, 0.5) into the empty network, `Query{Subject: B, UseConsensus: true}`
with range `[0,1]` returns what the same query with consensus disabled returns:
the two claims, each once with its own confidence, in the order of the visit. -/
theorem query_ignores_consensus (L : Lib) (r₁ r₂ : Readings) (n : Network) (ord : RangeOrder)
    (h : NewNetwork.ingest L [(r₁, sample.likesAB), (r₂, sample.likesCB)] = (none, n)) :
    ∃ results,
      n.Query ord
        { Subject := "B", UseConsensus := true, MinConfidence := .fin 0,
          MaxConfidence := .fin 1 }
        = .ok results ∧
      n.Query ord
        { Subject := "B", UseConsensus := false, MinConfidence := .fin 0,
          MaxConfidence := .fin 1 }
        = .ok results ∧
      results.Perm [sample.likesAB, sample.likesCB] := by
  have hst : n.stored = [sample.likesCB, sample.likesAB] := by
    unfold Network.stored
    rw [ingest_claims L _ NewNetwork n h]
    simp only [List.foldl_cons, List.foldl_nil]
    decide
  obtain ⟨results, hres, hperm⟩ := Query_perm_stored n ord
    { Subject := "B", UseConsensus := true, MinConfidence := .fin 0, MaxConfidence := .fin 1 }
    (by
      intro c hc
      rw [hst] at hc
      rw [matchesQuery_network n NewNetwork]
      revert c
      decide)
  rw [hst] at hperm
  refine ⟨results, hres, ?_, hperm.trans (List.Perm.swap _ _ _)⟩
  rw [← hres]
  exact Query_congr n ord _ _ rfl rfl rfl rfl

/-- C10, the amended statement with the stand-in library, the loop visiting the
entries as they are held. -/
theorem query_ignores_consensus_witness :
    NewNetwork.ingest sample.lib
        [(sample.readings 0, sample.likesAB), (sample.readings 1, sample.likesCB)]
      = (none, sample.likes) ∧
    ∃ results,
      sample.likes.Query sample.stored
        { Subject := "B", UseConsensus := true, MinConfidence := .fin 0,
          MaxConfidence := .fin 1 }
        = .ok results ∧
      sample.likes.Query sample.stored
        { Subject := "B", UseConsensus := false, MinConfidence := .fin 0,
          MaxConfidence := .fin 1 }
        = .ok results ∧
      results.Perm [sample.likesAB, sample.likesCB] :=
  ⟨rfl, query_ignores_consensus sample.lib (sample.readings 0) (sample.readings 1) sample.likes
    sample.stored rfl⟩

/-- C11, counterexample: with (A, likes, B, 0.9) and (C, likes, B, 0.5) stored and
range `[0,1]`, a loop that visits the map in one order returns the claim of
confidence 0.5 before the claim of confidence 0.9, which is not descending, and
a loop that visits it in the reverse order returns the two claims the other way
round: the same store and query give two different sequences. -/
theorem query_order_follows_map_iteration :
    sample.likes.Query sample.stored { MinConfidence := .fin 0, MaxConfidence := .fin 1 }
      = .ok [sample.likesCB, sample.likesAB] ∧
    Float64.lt sample.likesCB.ClaimBody.Rating.ConfidenceValue
      sample.likesAB.ClaimBody.Rating.ConfidenceValue = true ∧
    sample.likes.Query sample.reversed { MinConfidence := .fin 0, MaxConfidence := .fin 1 }
      = .ok [sample.likesAB, sample.likesCB] ∧
    sample.likes.Query sample.stored { MinConfidence := .fin 0, MaxConfidence := .fin 1 }
      ≠ sample.likes.Query sample.reversed
          { MinConfidence := .fin 0, MaxConfidence := .fin 1 } := by
  decide

/-- C11, amended: `Query` does not sort. For every store and every query the
sequence it returns lists the matching claims in the order in which its loop
visits the claim map, so two runs on the same store and query return
permutations of one another: the claims returned are determined by the store,
their order is the map iteration order. -/
theorem query_order_is_visit_order (n : Network) (ord₁ ord₂ : RangeOrder)
    (opts : QueryOptions) :
    ∃ results₁ results₂, n.Query ord₁ opts = .ok results₁ ∧ n.Query ord₂ opts = .ok results₂ ∧
      results₁.Perm results₂ ∧
      results₁ = ((ord₁.visit n.claims.entries).map (fun entry => entry.2)).filter
        (fun c => n.matchesQuery c opts) ∧
      results₂ = ((ord₂.visit n.claims.entries).map (fun entry => entry.2)).filter
        (fun c => n.matchesQuery c opts) := by
  obtain ⟨r₁, h₁, hp₁⟩ := Query_perm n ord₁ opts
  obtain ⟨r₂, h₂, hp₂⟩ := Query_perm n ord₂ opts
  refine ⟨r₁, r₂, h₁, h₂, hp₁.trans hp₂.symm, ?_, ?_⟩
  · rw [Query_eq] at h₁
    cases h₁
    rw [List.filter_map]
    rfl
  · rw [Query_eq] at h₂
    cases h₂
    rw [List.filter_map]
    rfl

/-- C12, counterexample: the tag lists `[defi, audit]` and `[audit, defi]` are
permutations of each other, `CreateClaim` succeeds on both with everything else
equal (the three clock readings included), and the two claims have different
proof values. -/
theorem createClaim_tag_order_changes_proof :
    List.Perm ["defi", "audit"] ["audit", "defi"] ∧
    (NewManager.CreateClaim sample.lib 63900000000000000000 63900000000000000001
        63900000000000000002 "A" "B" "trusts" sample.f08 ["defi", "audit"]).toOption.isSome ∧
    (NewManager.CreateClaim sample.lib 63900000000000000000 63900000000000000001
        63900000000000000002 "A" "B" "trusts" sample.f08 ["audit", "defi"]).toOption.isSome ∧
    (NewManager.CreateClaim sample.lib 63900000000000000000 63900000000000000001
        63900000000000000002 "A" "B" "trusts" sample.f08 ["defi", "audit"]).toOption.map
      (fun c => c.Proof.ProofValue)
    ≠ (NewManager.CreateClaim sample.lib 63900000000000000000 63900000000000000001
        63900000000000000002 "A" "B" "trusts" sample.f08 ["audit", "defi"]).toOption.map
      (fun c => c.Proof.ProofValue) := by
  refine ⟨List.Perm.swap _ _ _, by decide, by decide, by decide⟩

/-- C12, amended: the proof is computed over the tags in the order given.
`CreateClaim` does not sort the tags: the claim it returns carries the tag list
as passed, and its proof value is the hexadecimal digest of the serialization
of the claim with that tag list, so it is the same for two calls that pass the
tags in the same order (with the same issuer, subject, statement, confidence
and issue time), whatever the other clock readings. -/
theorem createClaim_proof_over_given_tags (m : Manager) (L : Lib)
    (issued stamped created stamped₁ created₁ : Time) (agent subject axiomText : String)
    (confidence : Float64) (tags : List String) (c : Claim)
    (h : m.CreateClaim L issued stamped created agent subject axiomText confidence tags
      = .ok c) :
    c.ClaimBody.Tags = tags ∧
    (∃ bytes,
      L.marshalClaim (unsealedClaim issued agent subject axiomText confidence tags) = .ok bytes ∧
      (unsealedClaim issued agent subject axiomText confidence tags).ClaimBody.Tags = tags ∧
      c.Proof.ProofValue = hex.EncodeToString (L.sum256 bytes)) ∧
    ∃ c₁, m.CreateClaim L issued stamped₁ created₁ agent subject axiomText confidence tags
        = .ok c₁ ∧ c₁.Proof.ProofValue = c.Proof.ProofValue := by
  unfold Manager.CreateClaim ProofGenerator.GenerateProof at h ⊢
  cases hb : L.marshalClaim (unsealedClaim issued agent subject axiomText confidence tags) with
  | error e => simp [hb] at h
  | ok bytes =>
    have hlen : (hex.EncodeToString (L.sum256 bytes)).length = 64 := by
      rw [EncodeToString_length, L.sum256_length]
    simp only [hb, sliceTo, hlen, le_refl, if_true, Except.ok.injEq] at h ⊢
    subst h
    exact ⟨rfl, ⟨bytes, rfl, rfl, rfl⟩, _, rfl, rfl⟩

/-- C12, the amended statement at the tag list `[defi, audit]`, with the
stand-in library. -/
theorem createClaim_proof_over_given_tags_witness :
    ∃ c, NewManager.CreateClaim sample.lib 63900000000000000000 63900000000000000001
        63900000000000000002 "A" "B" "trusts" sample.f08 ["defi", "audit"] = .ok c ∧
      c.ClaimBody.Tags = ["defi", "audit"] ∧
      (∃ bytes,
        sample.lib.marshalClaim (unsealedClaim 63900000000000000000 "A" "B" "trusts" sample.f08
          ["defi", "audit"]) = .ok bytes ∧
        (unsealedClaim 63900000000000000000 "A" "B" "trusts" sample.f08
          ["defi", "audit"]).ClaimBody.Tags = ["defi", "audit"] ∧
        c.Proof.ProofValue = hex.EncodeToString (sample.lib.sum256 bytes)) ∧
      ∃ c₁, NewManager.CreateClaim sample.lib 63900000000000000000 63900000000000000005
          63900000000000000006 "A" "B" "trusts" sample.f08 ["defi", "audit"] = .ok c₁ ∧
        c₁.Proof.ProofValue = c.Proof.ProofValue :=
  ⟨_, rfl,
    createClaim_proof_over_given_tags NewManager sample.lib 63900000000000000000
      63900000000000000001 63900000000000000002 63900000000000000005 63900000000000000006
      "A" "B" "trusts" sample.f08 ["defi", "audit"] _ rfl⟩

/-- C13, counterexample: `CreateClaim` with the empty statement returns a claim,
not `InvalidStatement`; so does `CreateClaim` with the empty issuer and with the
empty subject. -/
theorem createClaim_accepts_empty_text :
    NewManager.CreateClaim sample.lib 63900000000000000000 63900000000000000001
        63900000000000000002 "A" "B" "" sample.f08 [] ≠ .error .InvalidStatement ∧
    (NewManager.CreateClaim sample.lib 63900000000000000000 63900000000000000001
        63900000000000000002 "A" "B" "" sample.f08 []).toOption.map
      (fun c => c.ClaimBody.Rating.Axiom) = some "" ∧
    (NewManager.CreateClaim sample.lib 63900000000000000000 63900000000000000001
        63900000000000000002 "" "B" "trusts" sample.f08 []).toOption.map
      (fun c => c.Issuer) = some "" ∧
    (NewManager.CreateClaim sample.lib 63900000000000000000 63900000000000000001
        63900000000000000002 "A" "" "trusts" sample.f08 []).toOption.map
      (fun c => c.ClaimBody.Subject) = some "" := by
  decide

/-- C13, amended: `CreateClaim` does not reject empty text. For every input, the
empty statement, the empty issuer and the empty subject included, it never
returns `InvalidStatement`, and whenever the claim serializes it returns a claim
that carries the statement, the issuer and the subject as passed. -/
theorem createClaim_text_unchecked (m : Manager) (L : Lib)
    (issued stamped created : Time) (agent subject axiomText : String)
    (confidence : Float64) (tags : List String) :
    m.CreateClaim L issued stamped created agent subject axiomText confidence tags
      ≠ .error .InvalidStatement ∧
    ∀ bytes,
      L.marshalClaim (unsealedClaim issued agent subject axiomText confidence tags) = .ok bytes →
      ∃ c, m.CreateClaim L issued stamped created agent subject axiomText confidence tags = .ok c ∧
        c.ClaimBody.Rating.Axiom = axiomText ∧ c.Issuer = agent ∧ c.ClaimBody.Agent = agent ∧
        c.ClaimBody.Subject = subject := by
  unfold Manager.CreateClaim ProofGenerator.GenerateProof
  cases hb : L.marshalClaim (unsealedClaim issued agent subject axiomText confidence tags) with
  | error e => simp [hb]
  | ok bytes =>
    have hlen : (hex.EncodeToString (L.sum256 bytes)).length = 64 := by
      rw [EncodeToString_length, L.sum256_length]
    simp only [hb, sliceTo, hlen, le_refl, if_true]
    exact ⟨by simp, fun _ _ => ⟨_, rfl, rfl, rfl, rfl, rfl⟩⟩

/-- C13, the amended statement at the empty statement, issuer and subject, with
the stand-in library. -/
theorem createClaim_text_unchecked_witness :
    ∃ c, NewManager.CreateClaim sample.lib 63900000000000000000 63900000000000000001
        63900000000000000002 "" "" "" sample.f08 [] = .ok c ∧
      c.ClaimBody.Rating.Axiom = "" ∧ c.Issuer = "" ∧ c.ClaimBody.Agent = "" ∧
      c.ClaimBody.Subject = "" :=
  (createClaim_text_unchecked NewManager sample.lib 63900000000000000000 63900000000000000001
    63900000000000000002 "" "" "" sample.f08 []).2 _ rfl

/-- C14, counterexample: with (A, trusts, B) and (B, trusts, C) stored, `Query`
with `Depth` -1 (range `[0,1]`) returns the two claims and a nil error, and
`Query` with `MinConfidence` 1 above `MaxConfidence` 0 returns the empty slice
and a nil error; neither returns `InvalidQuery`. -/
theorem query_accepts_malformed_options :
    sample.chain2.Query sample.stored
        { Depth := -1, MinConfidence := .fin 0, MaxConfidence := .fin 1 }
      = .ok [sample.trustsBC, sample.trustsAB] ∧
    Float64.gt (.fin 1) (.fin 0) = true ∧
    sample.chain2.Query sample.stored { MinConfidence := .fin 1, MaxConfidence := .fin 0 }
      = .ok [] := by
  decide

/-- C15, counterexample: the store holds one claim, tagged `defi`; `Query` with
`Tags` `[nft]` (range `[0,1]`) returns it, though it shares no tag with the
query. -/
theorem query_returns_claim_without_common_tag :
    (NewNetwork.AddClaim sample.lib (sample.readings 0) sample.taggedAB).1 = none ∧
    sample.tagged.Query sample.stored
        { Tags := ["nft"], MinConfidence := .fin 0, MaxConfidence := .fin 1 }
      = .ok [sample.taggedAB] ∧
    sample.taggedAB.ClaimBody.Tags = ["defi"] ∧
    ∀ tag ∈ sample.taggedAB.ClaimBody.Tags, tag ∉ ["nft"] := by
  decide

/-- C17: in the node state machine `validate` is accepted only in state
`initial` and leads to `validated`, `process` only in `validated` and leads to
`processing`, `complete` only in `processing` and leads to `completed`; in every
other state each of these events is rejected and the machine stays as it is.
The sequence validate, process, complete takes the new machine to `completed`,
and every run of events that takes it from `initial` to `completed` has
accepted exactly validate, process, complete, in this order. -/
theorem lifecycle_no_skip :
    (∀ s, (state.nodeMachine s).Event "validate"
      = if s = "initial" then (none, state.nodeMachine "validated")
        else (some (.InvalidEventError "validate" s), state.nodeMachine s)) ∧
    (∀ s, (state.nodeMachine s).Event "process"
      = if s = "validated" then (none, state.nodeMachine "processing")
        else (some (.InvalidEventError "process" s), state.nodeMachine s)) ∧
    (∀ s, (state.nodeMachine s).Event "complete"
      = if s = "processing" then (none, state.nodeMachine "completed")
        else (some (.InvalidEventError "complete" s), state.nodeMachine s)) ∧
    state.NewNodeStateManager.FSM.Current = "initial" ∧
    (state.NewNodeStateManager.FSM.fire ["validate", "process", "complete"]).Current
      = "completed" ∧
    (∀ events, (state.NewNodeStateManager.FSM.fire events).Current = "completed" →
      state.NewNodeStateManager.FSM.accepted events = ["validate", "process", "complete"]) := by
  refine ⟨fun s => ?_, fun s => ?_, fun s => ?_, by decide, by decide, fun events h => ?_⟩
  · by_cases hs : s = "initial"
    · subst hs; decide
    · rw [if_neg hs]
      exact nodeMachine_invalid s "validate" (Or.inl rfl) (by simp [hs]) (by simp) (by simp)
        (by simp)
  · by_cases hs : s = "validated"
    · subst hs; decide
    · rw [if_neg hs]
      exact nodeMachine_invalid s "process" (Or.inr (Or.inl rfl)) (by simp) (by simp [hs])
        (by simp) (by simp)
  · by_cases hs : s = "processing"
    · subst hs; decide
    · rw [if_neg hs]
      exact nodeMachine_invalid s "complete" (Or.inr (Or.inr (Or.inl rfl))) (by simp) (by simp)
        (by simp [hs]) (by simp)
  · exact (accepted_of_completed events).1 h

/-- C18: in the node state machine, once the state is `completed` or `error`
every event (validate, process, complete, error, or any other name) is rejected
with an error and leaves the machine as it is, so through any run of events the
state stays what it was and no event is accepted. -/
theorem terminal_states_reject_every_event :
    (∀ event, ∃ err, (state.nodeMachine "completed").Event event
      = (some err, state.nodeMachine "completed")) ∧
    (∀ event, ∃ err, (state.nodeMachine "error").Event event
      = (some err, state.nodeMachine "error")) ∧
    (∀ events, ((state.nodeMachine "completed").fire events).Current = "completed" ∧
      (state.nodeMachine "completed").accepted events = []) ∧
    (∀ events, ((state.nodeMachine "error").fire events).Current = "error" ∧
      (state.nodeMachine "error").accepted events = []) := by
  have hc : ∀ event, ∃ err, (state.nodeMachine "completed").Event event
      = (some err, state.nodeMachine "completed") :=
    fun event => nodeMachine_rejects "completed" event (by simp) (by simp) (by simp) (by simp)
  have he : ∀ event, ∃ err, (state.nodeMachine "error").Event event
      = (some err, state.nodeMachine "error") :=
    fun event => nodeMachine_rejects "error" event (by simp) (by simp) (by simp) (by simp)
  refine ⟨hc, he, fun events => ?_, fun events => ?_⟩
  · obtain ⟨h₁, h₂⟩ := fire_of_rejecting _ hc events
    exact ⟨by rw [h₁]; rfl, h₂⟩
  · obtain ⟨h₁, h₂⟩ := fire_of_rejecting _ he events
    exact ⟨by rw [h₁]; rfl, h₂⟩

/-- C19, the code at the failing input: in each of the states `initial`,
`validated` and `processing` the node state machine rejects the event `error`
with `InvalidEventError` and stays in its state; the only source of the event in
the table is the state name `*`. -/
theorem error_event_rejected :
    (state.nodeMachine "initial").Event "error"
      = (some (.InvalidEventError "error" "initial"), state.nodeMachine "initial") ∧
    (state.nodeMachine "validated").Event "error"
      = (some (.InvalidEventError "error" "validated"), state.nodeMachine "validated") ∧
    (state.nodeMachine "processing").Event "error"
      = (some (.InvalidEventError "error" "processing"), state.nodeMachine "processing") ∧
    state.NewNodeStateManager.FSM.transitions.filter (fun t => t.1.1 = "error")
      = [(("error", "*"), "error")] := by
  decide

/-- C20: for every list of trust claims and every id, `Get` returns a nil error
and exactly the claims whose `Subject` or `Object` equals the id, in their
stored order; after `Claim(Alice, friend, Bob)` and `Claim(Bob, colleague,
Charlie)` on an empty graph, whatever the timestamps and whatever the two saves
returned, `Get(Bob)` has exactly two entries, the two claims. -/
theorem get_returns_claims_about_id :
    (∀ (t : actions.TrustGraph) (id : String),
      t.Get id = (t.Claims.filter (fun c => decide (c.Subject = id ∨ c.Object = id)), none)) ∧
    (∀ (dbPath ts₁ ts₂ : String) (saved₁ saved₂ : Option Error),
      ((((({ Claims := [], dbPath := dbPath } : actions.TrustGraph).Claim ts₁ saved₁
            "Alice" "friend" "Bob").2.Claim ts₂ saved₂ "Bob" "colleague" "Charlie").2.Get
          "Bob").1
        = [{ Subject := "Alice", Predicate := "friend", Object := "Bob", Timestamp := ts₁ },
            { Subject := "Bob", Predicate := "colleague", Object := "Charlie",
              Timestamp := ts₂ }])) := by
  refine ⟨Get_eq, fun dbPath ts₁ ts₂ saved₁ saved₂ => ?_⟩
  rw [Get_eq]
  simp [actions.TrustGraph.Claim]

/-- C24: `CreateClaim` never panics on the slice `proof.Hash[:64]`, and for every
input on which it succeeds the proof value of the returned claim has exactly 64
characters, all of them hexadecimal digits, the slice `[:64]` of it is in bounds
and is the whole of it, and the claim's `Verifier.ID` is `Axiomatic-key:`
followed by exactly the proof value. -/
theorem createClaim_hash_is_64_hex (m : Manager) (L : Lib)
    (issued stamped created : Time) (agent subject axiomText : String)
    (confidence : Float64) (tags : List String) :
    (∀ msg, m.CreateClaim L issued stamped created agent subject axiomText confidence tags
      ≠ .error (.panic msg)) ∧
    ∀ c, m.CreateClaim L issued stamped created agent subject axiomText confidence tags = .ok c →
      c.Proof.ProofValue.length = 64 ∧
      (∀ ch ∈ c.Proof.ProofValue.data, ch ∈ hex.hextable) ∧
      sliceTo c.Proof.ProofValue 64 = .ok c.Proof.ProofValue ∧
      c.Proof.Verifier.ID = "Axiomatic-key:" ++ c.Proof.ProofValue := by
  unfold Manager.CreateClaim ProofGenerator.GenerateProof
  cases hb : L.marshalClaim (unsealedClaim issued agent subject axiomText confidence tags) with
  | error e => simp [hb]
  | ok bytes =>
    have hlen : (hex.EncodeToString (L.sum256 bytes)).length = 64 := by
      rw [EncodeToString_length, L.sum256_length]
    simp only [hb, sliceTo_of_length _ hlen]
    refine ⟨fun msg => by simp, fun c hc => ?_⟩
    simp only [Except.ok.injEq] at hc
    subst hc
    exact ⟨hlen, EncodeToString_hex _, sliceTo_of_length _ hlen, rfl⟩

/-- C24 at a concrete input: with the stand-in library `CreateClaim` succeeds on
(A, trusts, B, 0.8), and the claim it returns has a proof value of 64
hexadecimal digits that follows `Axiomatic-key:` in its `Verifier.ID`. -/
theorem createClaim_hash_is_64_hex_witness :
    ∃ c, NewManager.CreateClaim sample.lib 63900000000000000000 63900000000000000001
        63900000000000000002 "A" "B" "trusts" sample.f08 [] = .ok c ∧
      c.Proof.ProofValue.length = 64 ∧
      (∀ ch ∈ c.Proof.ProofValue.data, ch ∈ hex.hextable) ∧
      sliceTo c.Proof.ProofValue 64 = .ok c.Proof.ProofValue ∧
      c.Proof.Verifier.ID = "Axiomatic-key:" ++ c.Proof.ProofValue :=
  ⟨_, rfl,
    (createClaim_hash_is_64_hex NewManager sample.lib 63900000000000000000
      63900000000000000001 63900000000000000002 "A" "B" "trusts" sample.f08 []).2 _ rfl⟩

/-- C21: for every list of trust claims, `Stats` reports `total_claims` equal to
the number of claims, `unique_entities` equal to the number of distinct strings
that occur as a `Subject` or an `Object`, and `unique_predicates` equal to the
number of distinct `Predicate` strings; after `Claim(Alice, friend, Bob)` and
`Claim(Bob, colleague, Charlie)` on an empty graph these are 2, 3 and 2. -/
theorem stats_counts :
    (∀ t : actions.TrustGraph,
      t.Stats.total_claims = t.Claims.length ∧
      t.Stats.unique_entities
        = (t.Claims.flatMap (fun c => [c.Subject, c.Object])).toFinset.card ∧
      t.Stats.unique_predicates = (t.Claims.map (fun c => c.Predicate)).toFinset.card) ∧
    (∀ (dbPath ts₁ ts₂ : String) (saved₁ saved₂ : Option Error),
      ((({ Claims := [], dbPath := dbPath } : actions.TrustGraph).Claim ts₁ saved₁
          "Alice" "friend" "Bob").2.Claim ts₂ saved₂ "Bob" "colleague" "Charlie").2.Stats
        = { total_claims := 2, unique_entities := 3, unique_predicates := 2 }) := by
  constructor
  · intro t
    obtain ⟨h₁, h₂⟩ := tally_keys t.Claims (∅, ∅)
    refine ⟨rfl, ?_, ?_⟩
    · exact AList_length_eq_card _ _ (fun k => by
        rw [actions.TrustGraph.tally, h₁ k]; simp)
    · exact AList_length_eq_card _ _ (fun k => by
        rw [actions.TrustGraph.tally, h₂ k]; simp)
  · intro dbPath ts₁ ts₂ saved₁ saved₂
    rfl

/-- C22, the code at the failing input: after `AddEdge("B", "A", "trusts")` the
node map has the keys A and B; when the loop of `GenerateDOT` yields them in one
order the text has the line of A before the line of B, when it yields them in
the other order the text has the line of B before the line of A, which is not
ascending, and the two texts differ. -/
theorem generateDOT_follows_map_iteration :
    (sample.edgeBA.nodes.keys).Perm ["A", "B"] ∧
    sample.edgeBA.GenerateDOT sample.nodesAsHeld
      = "digraph TrustGraph \x7b\n" ++ "  rankdir=LR;\n"
        ++ "  node [shape=box, style=rounded];\n"
        ++ visualizer.nodeLine "A" ++ visualizer.nodeLine "B"
        ++ visualizer.edgeLine { From := "B", To := "A", Predicate := "trusts" } ++ "\x7d\n" ∧
    sample.edgeBA.GenerateDOT sample.nodesReversed
      = "digraph TrustGraph \x7b\n" ++ "  rankdir=LR;\n"
        ++ "  node [shape=box, style=rounded];\n"
        ++ visualizer.nodeLine "B" ++ visualizer.nodeLine "A"
        ++ visualizer.edgeLine { From := "B", To := "A", Predicate := "trusts" } ++ "\x7d\n" ∧
    sample.edgeBA.GenerateDOT sample.nodesAsHeld
      ≠ sample.edgeBA.GenerateDOT sample.nodesReversed := by
  decide

/-- C14, amended: `Query` does not validate its options and never returns an
error. For every network and every options value, those with `Depth < 0` and
those with `MinConfidence > MaxConfidence` included, it returns a nil error
together with exactly the stored claims that pass `matchesQuery`, that is the
subject and agent filters when set and the two comparisons with the bounds, each
as often as it is stored; `Depth` is not read, so the result is the same for
every depth. -/
theorem query_never_fails (n : Network) (ord : RangeOrder) (opts : QueryOptions) :
    n.Query ord opts ≠ .error .InvalidQuery ∧
    (∃ results, n.Query ord opts = .ok results ∧
      results.Perm (n.stored.filter (fun c => n.matchesQuery c opts)) ∧
      ∀ c, c ∈ results ↔
        c ∈ n.stored ∧
        (opts.Subject = "" ∨ c.ClaimBody.Subject = opts.Subject) ∧
        (opts.Agent = "" ∨ c.Issuer = opts.Agent) ∧
        Float64.lt c.ClaimBody.Rating.ConfidenceValue opts.MinConfidence = false ∧
        Float64.gt c.ClaimBody.Rating.ConfidenceValue opts.MaxConfidence = false) ∧
    ∀ depth : Int, n.Query ord { opts with Depth := depth } = n.Query ord opts := by
  refine ⟨by rw [Query_eq]; simp, ?_, fun depth => Query_congr n ord _ _ rfl rfl rfl rfl⟩
  obtain ⟨results, hres, hperm⟩ := Query_perm n ord opts
  refine ⟨results, hres, hperm, fun c => ?_⟩
  have hmem := mem_Query n ord opts c
  rw [hres] at hmem
  simp only [Except.ok.injEq, exists_eq_left'] at hmem
  rw [hmem, matchesQuery_iff]

/-- C15, amended: the tags filter is not applied. For every store and every
query, whatever its `Tags` list, `Query` returns what the same query with an
empty `Tags` list returns: exactly the stored claims that pass the subject and
agent filters when set and the two comparisons with the bounds, each as often as
it is stored; so a claim that shares no tag with the query is returned whenever
it passes these tests. -/
theorem query_ignores_tags (n : Network) (ord : RangeOrder) (opts : QueryOptions)
    (tags : List String) :
    n.Query ord { opts with Tags := tags } = n.Query ord { opts with Tags := [] } ∧
    ∃ results, n.Query ord { opts with Tags := tags } = .ok results ∧
      results.Perm (n.stored.filter (fun c => n.matchesQuery c { opts with Tags := [] })) ∧
      ∀ c, c ∈ results ↔
        c ∈ n.stored ∧
        (opts.Subject = "" ∨ c.ClaimBody.Subject = opts.Subject) ∧
        (opts.Agent = "" ∨ c.Issuer = opts.Agent) ∧
        Float64.lt c.ClaimBody.Rating.ConfidenceValue opts.MinConfidence = false ∧
        Float64.gt c.ClaimBody.Rating.ConfidenceValue opts.MaxConfidence = false := by
  have heq : n.Query ord { opts with Tags := tags } = n.Query ord { opts with Tags := [] } :=
    Query_congr n ord _ _ rfl rfl rfl rfl
  obtain ⟨results, hres, hperm⟩ := Query_perm n ord { opts with Tags := [] }
  refine ⟨heq, results, heq.trans hres, hperm, fun c => ?_⟩
  have hmem := mem_Query n ord { opts with Tags := [] } c
  rw [hres] at hmem
  simp only [Except.ok.injEq, exists_eq_left'] at hmem
  rw [hmem, matchesQuery_iff]

/-- C23: an unset confidence bound is a bound. `matchesQuery` applies the two
comparisons with `MinConfidence` and `MaxConfidence` whatever the agent and
subject filters are; so for every store a query whose `MaxConfidence` is left at
its zero value returns no claim whose confidence is above 0, and on every store
the program builds (runs of the claim command from the empty network,
`json.Marshal` rejecting a confidence that is not a number) a query with
`MinConfidence > MaxConfidence` returns the empty slice and a nil error. -/
theorem unset_bound_is_applied (m : Manager) (L : Lib) (hL : L.RejectsNaN)
    (calls : List cmd.ClaimRun) (ord : RangeOrder) (opts : QueryOptions) :
    (∀ (n : Network) (c : Claim), n.matchesQuery c opts = true →
      Float64.lt c.ClaimBody.Rating.ConfidenceValue opts.MinConfidence = false ∧
      Float64.gt c.ClaimBody.Rating.ConfidenceValue opts.MaxConfidence = false) ∧
    (∀ n : Network, opts.MaxConfidence = .fin 0 →
      ∃ results, n.Query ord opts = .ok results ∧
        ∀ c ∈ results, Float64.gt c.ClaimBody.Rating.ConfidenceValue (.fin 0) = false) ∧
    (Float64.gt opts.MinConfidence opts.MaxConfidence = true →
      (cmd.runs m NewNetwork L calls).Query ord opts = .ok []) := by
  refine ⟨fun n c hc => ?_, fun n hmax => ?_, fun hgt => ?_⟩
  · obtain ⟨-, -, hlo, hhi⟩ := (matchesQuery_iff n c opts).mp hc
    exact ⟨hlo, hhi⟩
  · exact ⟨_, Query_eq n ord opts, Query_zero_max n ord opts hmax _ (Query_eq n ord opts)⟩
  · exact Query_empty_of_min_gt_max _ ord opts hgt (runs_invariant m L hL calls).2

/-- C23 at a concrete input: after the runs of the claim command for
(A, trusts, B, 0.8) and (C, likes, B, 0.5) with the stand-in library, the query
with the bounds left at their zero value returns no claim (both confidences are
above 0), and so does the query with `MinConfidence` 1 above `MaxConfidence` 0. -/
theorem unset_bound_is_applied_witness :
    sample.lib.RejectsNaN ∧
    sample.afterRuns.stored.length = 2 ∧
    sample.afterRuns.Query sample.stored { Subject := "B" } = .ok [] ∧
    Float64.gt (.fin 1) (.fin 0) = true ∧
    sample.afterRuns.Query sample.stored { MinConfidence := .fin 1, MaxConfidence := .fin 0 }
      = .ok [] :=
  ⟨sample_lib_rejectsNaN, by decide, by decide, by decide,
    (unset_bound_is_applied NewManager sample.lib sample_lib_rejectsNaN sample.claimRuns
      sample.stored { MinConfidence := .fin 1, MaxConfidence := .fin 0 }).2.2 (by decide)⟩

end Claims

end Axia
